import Mathlib

/-
  Verification development for the cppsalt repository.

  Shallow embedding of the ownership/lifetime core:
    - the exception taxonomy of include/except.hpp (kinds and base-class chains),
    - array_ptr from include/memory.hpp (contiguous owned buffer),
    - vector from include/vec.hpp (dynamic array),
    - String from string.cpp / include/string.hpp (growable string),
    - unique_ptr and shared_ptr from include/memory.hpp, embedded as labelled
      transition systems over an explicit allocation ledger so that freeing,
      leaking and double-free are observable.

  Machine pointers are modelled as allocation identifiers (Nat); null is none.
  C++ sizes (cslt::size_t) are modelled as Nat.  Arrays are modelled as Lean
  lists whose length is the allocation size; new T[n] default-constructs, which
  is modelled with List.replicate n default over an Inhabited element type.
-/

namespace Cppsalt

/-
  Exception taxonomy, from include/except.hpp.  Each C++ class becomes one
  constructor; the single-inheritance base of each class is recorded by
  excParent.  A thrown exception is catchable by a handler kind exactly when
  the handler kind appears on the thrown kind's base chain.
-/

inductive ExcKind where
  | exception
  | logic_error
  | invalid_argument
  | domain_error
  | length_error
  | out_of_range
  | future_error
  | runtime_error
  | range_error
  | overflow_error
  | underflow_error
  | regex_error
  | system_error
  | tx_exception
  | nonexistent_local_time
  | ambiguous_local_time
  | format_error
  | bad_typeid
  | bad_cast
  | bad_optional_access
  | bad_expected_access
  | bad_weak_ptr
  | bad_function_call
  | bad_alloc
  | bad_array_new_length
  | bad_exception
  | bad_variant_access
  deriving DecidableEq

open ExcKind in
def excParent : ExcKind → Option ExcKind
  | exception => none
  | logic_error => some exception
  | invalid_argument => some logic_error
  | domain_error => some logic_error
  | length_error => some logic_error
  | out_of_range => some logic_error
  | future_error => some logic_error
  | runtime_error => some exception
  | range_error => some runtime_error
  | overflow_error => some runtime_error
  | underflow_error => some runtime_error
  | regex_error => some runtime_error
  | system_error => some runtime_error
  | tx_exception => some runtime_error
  | nonexistent_local_time => some runtime_error
  | ambiguous_local_time => some runtime_error
  | format_error => some runtime_error
  | bad_typeid => some exception
  | bad_cast => some exception
  | bad_optional_access => some exception
  | bad_expected_access => some exception
  | bad_weak_ptr => some exception
  | bad_function_call => some exception
  | bad_alloc => some exception
  | bad_array_new_length => some bad_alloc
  | bad_exception => some exception
  | bad_variant_access => some exception

/-
  The base chain of a kind (the kind itself followed by its transitive bases),
  written out per class from the inheritance declarations of except.hpp.
  selfAndBases_eq below checks it against excParent.
-/
open ExcKind in
def selfAndBases : ExcKind → List ExcKind
  | exception => [exception]
  | logic_error => [logic_error, exception]
  | invalid_argument => [invalid_argument, logic_error, exception]
  | domain_error => [domain_error, logic_error, exception]
  | length_error => [length_error, logic_error, exception]
  | out_of_range => [out_of_range, logic_error, exception]
  | future_error => [future_error, logic_error, exception]
  | runtime_error => [runtime_error, exception]
  | range_error => [range_error, runtime_error, exception]
  | overflow_error => [overflow_error, runtime_error, exception]
  | underflow_error => [underflow_error, runtime_error, exception]
  | regex_error => [regex_error, runtime_error, exception]
  | system_error => [system_error, runtime_error, exception]
  | tx_exception => [tx_exception, runtime_error, exception]
  | nonexistent_local_time => [nonexistent_local_time, runtime_error, exception]
  | ambiguous_local_time => [ambiguous_local_time, runtime_error, exception]
  | format_error => [format_error, runtime_error, exception]
  | bad_typeid => [bad_typeid, exception]
  | bad_cast => [bad_cast, exception]
  | bad_optional_access => [bad_optional_access, exception]
  | bad_expected_access => [bad_expected_access, exception]
  | bad_weak_ptr => [bad_weak_ptr, exception]
  | bad_function_call => [bad_function_call, exception]
  | bad_alloc => [bad_alloc, exception]
  | bad_array_new_length => [bad_array_new_length, bad_alloc, exception]
  | bad_exception => [bad_exception, exception]
  | bad_variant_access => [bad_variant_access, exception]

def catches (thrown handler : ExcKind) : Prop :=
  handler ∈ selfAndBases thrown

instance (t h : ExcKind) : Decidable (catches t h) := by
  unfold catches
  infer_instance

/- A thrown cslt exception object: its dynamic kind and its what() message. -/
structure CsltError where
  kind : ExcKind
  msg : String
  deriving DecidableEq

/- throw cslt::out_of_range(msg) -/
def throwOutOfRange (m : String) : CsltError :=
  ⟨ExcKind.out_of_range, m⟩

/-
  Index-loop helpers shared by the embeddings of std::copy, strcpy and the
  element-copy for-loops in memory.hpp and vec.hpp.
  copyLoop src dst n performs dst[i] = src[i] for i = 0 .. n-1 in order.
-/
def copyLoop {α : Type} [Inhabited α] (src dst : List α) : Nat → List α
  | 0 => dst
  | n + 1 => (copyLoop src dst n).set n (src.getD n default)

/-
  array_ptr from include/memory.hpp.  The owned heap array is the list data;
  the _len field is the capacity count stored by the class.  In every state
  produced by the constructor, copy and realloc, data.length = _len.
-/
structure array_ptr (α : Type) where
  data : List α
  _len : Nat
  deriving DecidableEq

/- explicit array_ptr(std::size_t buff) : new T[buff] default-constructed, _len = buff -/
def array_ptr.mkBuff (α : Type) [Inhabited α] (buff : Nat) : array_ptr α :=
  ⟨List.replicate buff default, buff⟩

/- An array_ptr of capacity vals.length whose slots hold vals, for stating claims. -/
def array_ptr.ofList {α : Type} (vals : List α) : array_ptr α :=
  ⟨vals, vals.length⟩

/-
  array_ptr::realloc(buff, reduce_size) from memory.hpp lines 326-343:
  if (!reduce_size && buff < _len) return;  else allocate new T[buff],
  copy min(buff, _len) elements with move_if_noexcept, delete old, adopt.
-/
def array_ptr.realloc {α : Type} [Inhabited α] (a : array_ptr α) (buff : Nat)
    (reduce_size : Bool) : array_ptr α :=
  if !reduce_size && buff < a._len then
    a
  else
    let newPtr := List.replicate buff default
    let numElementsToCopy := min buff a._len
    ⟨copyLoop a.data newPtr numElementsToCopy, buff⟩

/-
  T& operator[](cslt::size_t index) const  (memory.hpp lines 348-352):
  if (index >= _len) throw cslt::out_of_range("Index out of range"); return ptr[index];
-/
def array_ptr.getConst {α : Type} [Inhabited α] (a : array_ptr α) (index : Nat) :
    Except CsltError α :=
  if index ≥ a._len then
    Except.error (throwOutOfRange "Index out of range")
  else
    Except.ok (a.data.getD index default)

/-
  T& operator[](cslt::size_t index)  (memory.hpp lines 353-357): the mutable
  overload has the identical body.
-/
def array_ptr.getMut {α : Type} [Inhabited α] (a : array_ptr α) (index : Nat) :
    Except CsltError α :=
  if index ≥ a._len then
    Except.error (throwOutOfRange "Index out of range")
  else
    Except.ok (a.data.getD index default)

/-
  State-passing view of the accessor: a const method cannot mutate the object,
  so the post-state is the input object unchanged.
-/
def array_ptr.getConstSt {α : Type} [Inhabited α] (a : array_ptr α) (index : Nat) :
    array_ptr α × Except CsltError α :=
  (a, a.getConst index)

/- array_ptr copy constructor (memory.hpp lines 289-291): new T[other._len], then std::copy of other._len elements. -/
def array_ptr.copyCtor {α : Type} [Inhabited α] (other : array_ptr α) : array_ptr α :=
  ⟨copyLoop other.data (List.replicate other._len default) other._len, other._len⟩

/-
  array_ptr move assignment (memory.hpp lines 314-323), for two distinct
  objects: delete own array, steal the other object's ptr and _len, then null
  the other object's ptr and zero its _len.  Returns (new this, new other).
-/
def array_ptr.moveAssign {α : Type} (_dst other : array_ptr α) :
    array_ptr α × array_ptr α :=
  (⟨other.data, other._len⟩, ⟨[], 0⟩)

/-
  array_ptr::reset(T* p, std::size_t newLen) (memory.hpp lines 370-376) frees
  and adopts only under the guard if (ptr != p).  To make freeing observable,
  this operation is embedded over a one-box world that records the identifier
  of the currently owned allocation and a ledger of freed allocations.
-/
structure APWorld where
  boxPtr : Option Nat
  boxLen : Nat
  freed : List Nat
  deriving DecidableEq

def APWorld.reset (w : APWorld) (p : Option Nat) (newLen : Nat) : APWorld :=
  if w.boxPtr ≠ p then
    { boxPtr := p, boxLen := newLen, freed := w.freed ++ w.boxPtr.toList }
  else
    w

/-
  vector from include/vec.hpp.  _data is the backing heap array (length =
  _alloc in every reachable state), _len the element count, _alloc the
  allocation count.
-/
structure vec (α : Type) where
  _data : List α
  _len : Nat
  _alloc : Nat
  deriving DecidableEq

/- vector() : _data(new T[1]), _alloc(1)  (vec.hpp line 38); _len defaults to 0 -/
def vec.mkDefault (α : Type) [Inhabited α] : vec α :=
  ⟨List.replicate 1 default, 0, 1⟩

/- vector(cslt::size_t buff) : _data(new T[buff]), _alloc(buff)  (vec.hpp line 42) -/
def vec.mkBuff (α : Type) [Inhabited α] (buff : Nat) : vec α :=
  ⟨List.replicate buff default, 0, buff⟩

/-
  void push_back(const T& value)  (vec.hpp lines 52-69):
  if (_len >= _alloc) { _alloc = (_alloc > 0) ? _alloc * 2 : 1;
    newData = new T[_alloc]; std::copy(_data, _data + _len, newData);
    delete[] _data; _data = newData; }
  _data[_len++] = value;
-/
def vec.push_back {α : Type} [Inhabited α] (v : vec α) (value : α) : vec α :=
  if v._len ≥ v._alloc then
    let alloc := if v._alloc > 0 then v._alloc * 2 else 1
    let newData := copyLoop v._data (List.replicate alloc default) v._len
    ⟨newData.set v._len value, v._len + 1, alloc⟩
  else
    ⟨v._data.set v._len value, v._len + 1, v._alloc⟩

/-
  The right-shift loop of the indexed push_back (vec.hpp lines 88-90):
  for (cslt::size_t i = _len; i > index; --i) _data[i] = _data[i - 1];
  shiftLoop data index i performs the iterations from i down to index + 1.
-/
def shiftLoop {α : Type} [Inhabited α] (data : List α) (index : Nat) : Nat → List α
  | 0 => data
  | i + 1 =>
    if i + 1 > index then
      shiftLoop (data.set (i + 1) (data.getD i default)) index i
    else
      data

/-
  void push_back(const T& value, cslt::size_t index)  (vec.hpp lines 73-97):
  bounds check index > _len, then grow when _len + 1 > _alloc exactly as in
  plain push_back, then shift right from the end, insert at index, increment
  _len.
-/
def vec.push_back_at {α : Type} [Inhabited α] (v : vec α) (value : α) (index : Nat) :
    Except CsltError (vec α) :=
  if index > v._len then
    Except.error (throwOutOfRange "Index is out of bounds")
  else
    let grow := v._len + 1 > v._alloc
    let alloc := if grow then (if v._alloc > 0 then v._alloc * 2 else 1) else v._alloc
    let data :=
      if grow then copyLoop v._data (List.replicate alloc default) v._len else v._data
    let data := shiftLoop data index v._len
    Except.ok ⟨data.set index value, v._len + 1, alloc⟩

/- k appends of vals 0, vals 1, ... onto a default-constructed vector -/
def vec.appendN (α : Type) [Inhabited α] (vals : Nat → α) : Nat → vec α
  | 0 => vec.mkDefault α
  | k + 1 => (vec.appendN α vals k).push_back (vals k)

/-
  Well-formedness of a vector state: a vec value v logically contains the
  sequence as when _len counts as, the backing array really has _alloc slots,
  _len fits the allocation, and the first _len slots hold as in order.
-/
def vecWf {α : Type} (v : vec α) (as : List α) : Prop :=
  v._len = as.length ∧ v._data.length = v._alloc ∧ v._len ≤ v._alloc ∧
  v._data.take as.length = as

/-
  String from include/string.hpp and string.cpp: one array_ptr of chars plus
  the two scalar fields len and alloc.  The Lean name GString avoids shadowing
  the Lean String used for exception messages.
-/
structure GString where
  ptr : array_ptr Char
  len : Nat
  alloc : Nat
  deriving DecidableEq

def nullChar : Char := Char.ofNat 0

/-
  String::String(const char* str)  (string.cpp lines 19-23):
  ptr(strlen(str) + 1), len(strlen(str)), alloc(strlen(str) + 1);
  strcpy(ptr.get(), str); ptr[strlen(str)] = terminator.
  A C string argument is modelled as the list s of its characters before the
  terminator, so strlen(str) = s.length and strcpy copies s.length + 1 chars.
-/
def GString.fromCString (s : List Char) : GString :=
  let n := s.length
  let buf := List.replicate (n + 1) default
  let copied := copyLoop (s ++ [nullChar]) buf (n + 1)
  { ptr := ⟨copied.set n nullChar, n + 1⟩, len := n, alloc := n + 1 }

/- cslt::size_t String::size() const { return len; } -/
def GString.size (s : GString) : Nat := s.len

/- cslt::size_t String::memory() const { return alloc; } -/
def GString.memory (s : GString) : Nat := s.alloc

/- const char* String::c_string() const { return ptr.get(); }: the owned char array -/
def GString.c_string (s : GString) : List Char := s.ptr.data

/-
  String::String(String&& other)  (string.cpp line 51):
  : ptr(other.ptr), len(other.len), alloc(other.alloc).
  Inside the constructor body, other is an lvalue, so the initializer
  ptr(other.ptr) selects the array_ptr COPY constructor, a deep copy; the
  source object is left untouched.  Returns (constructed, source afterward).
-/
def GString.moveCtor (other : GString) : GString × GString :=
  ({ ptr := other.ptr.copyCtor, len := other.len, alloc := other.alloc }, other)

/-
  String& String::operator=(String&& other)  (string.cpp lines 58-65), on the
  this != &other path: ptr = cslt::move(other.ptr) runs the array_ptr move
  assignment (steals data and capacity, nulls the source array and zeroes its
  capacity), then len and alloc are plain-copied; the guard never touches
  other.len and other.alloc.  Returns (new this, new other).
-/
def GString.moveAssignOp (dst other : GString) : GString × GString :=
  let moved := array_ptr.moveAssign dst.ptr other.ptr
  ({ ptr := moved.1, len := other.len, alloc := other.alloc },
   { other with ptr := moved.2 })

/-
  Association-list helpers for worlds of live smart-pointer objects: entries
  are (object identity, object state).  setEntry rewrites the entry for one
  identity, getEntry looks an identity up, removeEntry drops it.
-/
def setEntry {β : Type} (l : List (Nat × β)) (k : Nat) (x : β) : List (Nat × β) :=
  l.map (fun p => if p.1 = k then (k, x) else p)

def getEntry {β : Type} (l : List (Nat × β)) (k : Nat) : Option β :=
  (l.find? (fun p => decide (p.1 = k))).map Prod.snd

def removeEntry {β : Type} (l : List (Nat × β)) (k : Nat) : List (Nat × β) :=
  l.filter (fun p => decide (p.1 ≠ k))

/-
  unique_ptr from include/memory.hpp, embedded as a world of live boxes over
  an allocation ledger.  A box state is its ptr field: the identifier of the
  owned allocation, or none for null.  allocated lists every identifier handed
  out by new, freed every identifier passed to delete.
-/
structure UState where
  boxes : List (Nat × Option Nat)
  allocated : List Nat
  freed : List Nat
  next : Nat
  deriving DecidableEq

def UState.init : UState := ⟨[], [], [], 0⟩

inductive UOp where
  | create (b : Nat)
  | createNull (b : Nat)
  | moveCtor (dst src : Nat)
  | moveAssign (dst src : Nat)
  | release (b : Nat)
  | reset (b : Nat)
  | destroy (b : Nat)
  deriving DecidableEq

/-
  One operation on the world of unique_ptr boxes.  Operations whose
  preconditions fail (creating an already-live identity, moving from a dead
  box) leave the world unchanged.
    create b        : unique_ptr<T> b(new T)
    createNull b    : unique_ptr<T> b(nullptr)
    moveCtor d s    : unique_ptr<T> d(cslt::move(s))   (memory.hpp 60-62)
    moveAssign d s  : d = cslt::move(s)                (memory.hpp 70-77)
    release b       : (void)b.release()
    reset b         : b.reset()
    destroy b       : b goes out of scope (memory.hpp 43-45)
-/
def uStep (op : UOp) (s : UState) : UState :=
  match op with
  | .create b =>
    if (getEntry s.boxes b).isSome then s
    else
      { s with boxes := (b, some s.next) :: s.boxes,
               allocated := s.allocated ++ [s.next],
               next := s.next + 1 }
  | .createNull b =>
    if (getEntry s.boxes b).isSome then s
    else { s with boxes := (b, none) :: s.boxes }
  | .moveCtor dst src =>
    match getEntry s.boxes src with
    | none => s
    | some p =>
      if (getEntry s.boxes dst).isSome then s
      else { s with boxes := (dst, p) :: setEntry s.boxes src none }
  | .moveAssign dst src =>
    if dst = src then
      s
    else
      match getEntry s.boxes dst, getEntry s.boxes src with
      | some pd, some _ =>
        { s with boxes := setEntry (setEntry s.boxes dst none) src none,
                 freed := s.freed ++ pd.toList }
      | _, _ => s
  | .release b =>
    match getEntry s.boxes b with
    | some _ => { s with boxes := setEntry s.boxes b none }
    | none => s
  | .reset b =>
    match getEntry s.boxes b with
    | some p =>
      { s with boxes := setEntry s.boxes b none, freed := s.freed ++ p.toList }
    | none => s
  | .destroy b =>
    match getEntry s.boxes b with
    | some p =>
      { s with boxes := removeEntry s.boxes b, freed := s.freed ++ p.toList }
    | none => s

def uRun (ops : List UOp) : UState :=
  ops.foldl (fun s op => uStep op s) UState.init

/-
  shared_ptr from include/memory.hpp.  A box state is the pair of its ptr and
  counter fields, each the identifier of a heap allocation or none.  ctrVal is
  the heap of reference-count cells.  Ledgers as in UState, kept separately
  for objects and counter cells.
-/
structure SBox where
  ptr : Option Nat
  counter : Option Nat
  deriving DecidableEq

structure SPState where
  boxes : List (Nat × SBox)
  ctrVal : Nat → Nat
  allocObj : List Nat
  allocCtr : List Nat
  freedObj : List Nat
  freedCtr : List Nat
  next : Nat

def SPState.init : SPState := ⟨[], fun _ => 0, [], [], [], [], 0⟩

/- write value v into counter cell c -/
def bumpCtr (f : Nat → Nat) (c v : Nat) : Nat → Nat :=
  fun x => if x = c then v else f x

/-
  The private release() helper (memory.hpp 152-159), acting on the heap given
  the field values v of the box being released:
  if (counter && --(*counter) == 0) { delete ptr; delete counter; }
  The caller then nulls the box fields.
-/
def spReleaseFields (s : SPState) (v : SBox) : SPState :=
  match v.counter with
  | none => s
  | some c =>
    let newVal := s.ctrVal c - 1
    let s1 := { s with ctrVal := bumpCtr s.ctrVal c newVal }
    if newVal = 0 then
      { s1 with freedObj := s1.freedObj ++ v.ptr.toList,
                freedCtr := s1.freedCtr ++ [c] }
    else
      s1

inductive SPOp where
  | create (b : Nat)
  | createNull (b : Nat)
  | copyCtor (dst src : Nat)
  | moveCtor (dst src : Nat)
  | copyAssign (dst src : Nat)
  | moveAssign (dst src : Nat)
  | resetNull (b : Nat)
  | resetNew (b : Nat)
  | destroy (b : Nat)
  deriving DecidableEq

/-
  One operation on the world of shared_ptr boxes.
    create b        : shared_ptr<T> b(new T)        (ctor, memory.hpp 164)
    createNull b    : shared_ptr<T> b               (null ctor)
    copyCtor d s    : shared_ptr<T> d(s)            (memory.hpp 174-178)
    moveCtor d s    : shared_ptr<T> d(cslt::move(s)) (memory.hpp 196-199)
    copyAssign d s  : d = s                         (memory.hpp 182-192)
    moveAssign d s  : d = cslt::move(s)             (memory.hpp 203-212)
    resetNull b     : b.reset()                     (memory.hpp 216-222)
    resetNew b      : b.reset(new T)
    destroy b       : b goes out of scope           (memory.hpp 168-170)
  resetNew always passes the if (ptr != p) guard because a freshly allocated
  address differs from every currently live address.
-/
def spStep (op : SPOp) (s : SPState) : SPState :=
  match op with
  | .create b =>
    if (getEntry s.boxes b).isSome then s
    else
      { s with boxes := (b, ⟨some s.next, some (s.next + 1)⟩) :: s.boxes,
               ctrVal := bumpCtr s.ctrVal (s.next + 1) 1,
               allocObj := s.allocObj ++ [s.next],
               allocCtr := s.allocCtr ++ [s.next + 1],
               next := s.next + 2 }
  | .createNull b =>
    if (getEntry s.boxes b).isSome then s
    else { s with boxes := (b, ⟨none, none⟩) :: s.boxes }
  | .copyCtor dst src =>
    match getEntry s.boxes src with
    | none => s
    | some v =>
      if (getEntry s.boxes dst).isSome then s
      else
        let s1 := { s with boxes := (dst, v) :: s.boxes }
        match v.counter with
        | some c => { s1 with ctrVal := bumpCtr s1.ctrVal c (s1.ctrVal c + 1) }
        | none => s1
  | .moveCtor dst src =>
    match getEntry s.boxes src with
    | none => s
    | some v =>
      if (getEntry s.boxes dst).isSome then s
      else { s with boxes := (dst, v) :: setEntry s.boxes src ⟨none, none⟩ }
  | .copyAssign dst src =>
    if dst = src then
      s
    else
      match getEntry s.boxes dst, getEntry s.boxes src with
      | some vd, some vs =>
        let s1 := spReleaseFields s vd
        let s2 := { s1 with boxes := setEntry s1.boxes dst vs }
        match vs.counter with
        | some c => { s2 with ctrVal := bumpCtr s2.ctrVal c (s2.ctrVal c + 1) }
        | none => s2
      | _, _ => s
  | .moveAssign dst src =>
    if dst = src then
      s
    else
      match getEntry s.boxes dst, getEntry s.boxes src with
      | some vd, some vs =>
        let s1 := spReleaseFields s vd
        { s1 with boxes := setEntry (setEntry s1.boxes dst vs) src ⟨none, none⟩ }
      | _, _ => s
  | .resetNull b =>
    match getEntry s.boxes b with
    | none => s
    | some v =>
      if v.ptr = none then s
      else
        let s1 := spReleaseFields s v
        { s1 with boxes := setEntry s1.boxes b ⟨none, none⟩ }
  | .resetNew b =>
    match getEntry s.boxes b with
    | none => s
    | some v =>
      let s1 := spReleaseFields s v
      { s1 with boxes := setEntry s1.boxes b ⟨some s1.next, some (s1.next + 1)⟩,
                ctrVal := bumpCtr s1.ctrVal (s1.next + 1) 1,
                allocObj := s1.allocObj ++ [s1.next],
                allocCtr := s1.allocCtr ++ [s1.next + 1],
                next := s1.next + 2 }
  | .destroy b =>
    match getEntry s.boxes b with
    | none => s
    | some v =>
      let s1 := spReleaseFields s v
      { s1 with boxes := removeEntry s1.boxes b }

def spRun (ops : List SPOp) : SPState :=
  ops.foldl (fun s op => spStep op s) SPState.init

/- number of live boxes whose counter field references cell c -/
def refCtr (s : SPState) (c : Nat) : Nat :=
  s.boxes.countP (fun p => decide (p.2.counter = some c))

/- number of live boxes whose ptr field references object o -/
def refObj (s : SPState) (o : Nat) : Nat :=
  s.boxes.countP (fun p => decide (p.2.ptr = some o))

/-
  The reference-counting invariant of the shared_ptr world.
    keysNodup      : box identities are distinct
    ptrIffCtr      : a box has an object exactly when it has a counter cell
    objAlloc/ctrAlloc : referenced identifiers were really allocated
    allocObjLt ... : every allocated identifier is below the bump pointer
    ctrCount       : a referenced counter cell is unfreed and its value equals
                     the number of live boxes referencing it
    objCoherent    : boxes agree on the (object, counter) pairing
    freed* Nodup   : nothing is ever freed twice
    freedSub       : only allocated identifiers are freed
    objLedger/ctrLedger : an allocated identifier is freed exactly when no
                     live box references it any more
-/
structure SPInv (s : SPState) : Prop where
  keysNodup : (s.boxes.map Prod.fst).Nodup
  ptrIffCtr : ∀ p ∈ s.boxes, ((p.2 : SBox).ptr = none ↔ p.2.counter = none)
  objAlloc : ∀ p ∈ s.boxes, ∀ o : Nat, (p.2 : SBox).ptr = some o → o ∈ s.allocObj
  ctrAlloc : ∀ p ∈ s.boxes, ∀ c : Nat, (p.2 : SBox).counter = some c → c ∈ s.allocCtr
  allocObjLt : ∀ o ∈ s.allocObj, o < s.next
  allocCtrLt : ∀ c ∈ s.allocCtr, c < s.next
  ctrCount : ∀ c : Nat, 0 < refCtr s c → c ∉ s.freedCtr ∧ s.ctrVal c = refCtr s c
  objCoherent : ∀ p ∈ s.boxes, ∀ q ∈ s.boxes,
    ((p.2 : SBox).ptr = (q.2 : SBox).ptr ↔ (p.2 : SBox).counter = q.2.counter)
  freedObjNodup : s.freedObj.Nodup
  freedCtrNodup : s.freedCtr.Nodup
  freedObjSub : ∀ o ∈ s.freedObj, o ∈ s.allocObj
  freedCtrSub : ∀ c ∈ s.freedCtr, c ∈ s.allocCtr
  objLedger : ∀ o ∈ s.allocObj, (o ∈ s.freedObj ↔ refObj s o = 0)
  ctrLedger : ∀ c ∈ s.allocCtr, (c ∈ s.freedCtr ↔ refCtr s c = 0)

/-
  ==============================================================================
  Lemmas and claim theorems.
  ==============================================================================
-/

theorem getD_set_self {α : Type} (l : List α) (i : Nat) (a d : α) (h : i < l.length) :
    (l.set i a).getD i d = a := by
  induction l generalizing i with
  | nil => simp at h
  | cons x xs ih =>
    cases i with
    | zero => rfl
    | succ j =>
      simp only [List.set, List.getD, List.get?]
      exact ih j (by simpa using h)

theorem getD_set_other {α : Type} (l : List α) (i j : Nat) (a d : α) (h : i ≠ j) :
    (l.set i a).getD j d = l.getD j d := by
  induction l generalizing i j with
  | nil => simp [List.set]
  | cons x xs ih =>
    cases i with
    | zero =>
      cases j with
      | zero => exact absurd rfl h
      | succ m => rfl
    | succ n =>
      cases j with
      | zero => rfl
      | succ m =>
        simp only [List.set, List.getD, List.get?]
        exact ih n m (by intro e; exact h (by rw [e]))

theorem getD_of_le_length {α : Type} (l : List α) (j : Nat) (d : α) (h : l.length ≤ j) :
    l.getD j d = d := by
  induction l generalizing j with
  | nil => cases j <;> rfl
  | cons x xs ih =>
    cases j with
    | zero => simp at h
    | succ m =>
      simp only [List.getD, List.get?]
      exact ih m (by simpa using h)

theorem eq_of_getD {α : Type} (l m : List α) (d : α) (hlen : l.length = m.length)
    (h : ∀ j : Nat, l.getD j d = m.getD j d) : l = m := by
  induction l generalizing m with
  | nil =>
    cases m with
    | nil => rfl
    | cons y ys => simp at hlen
  | cons x xs ih =>
    cases m with
    | nil => simp at hlen
    | cons y ys =>
      have h0 := h 0
      simp only [List.getD, List.get?, Option.getD_some] at h0
      have htl : xs = ys := by
        refine ih ys (by simpa using hlen) (fun j => ?_)
        simpa only [List.getD, List.get?] using h (j + 1)
      rw [h0, htl]

theorem copyLoop_length {α : Type} [Inhabited α] (src dst : List α) (n : Nat) :
    (copyLoop src dst n).length = dst.length := by
  induction n with
  | zero => rfl
  | succ m ih => simpa [copyLoop] using ih

theorem copyLoop_getD {α : Type} [Inhabited α] (src dst : List α) (n : Nat)
    (hn : n ≤ dst.length) (j : Nat) :
    (copyLoop src dst n).getD j default =
      if j < n then src.getD j default else dst.getD j default := by
  induction n with
  | zero => simp [copyLoop]
  | succ m ih =>
    have hm : m ≤ dst.length := Nat.le_of_succ_le hn
    have step : copyLoop src dst (m + 1) =
        (copyLoop src dst m).set m (src.getD m default) := rfl
    by_cases hj : j = m
    · subst hj
      have hlt : j < (copyLoop src dst j).length := by
        rw [copyLoop_length]
        exact Nat.lt_of_lt_of_le (Nat.lt_succ_self j) hn
      rw [step, getD_set_self _ _ _ _ hlt, if_pos (Nat.lt_succ_self j)]
    · rw [step, getD_set_other _ _ _ _ _ (fun e => hj e.symm), ih hm]
      by_cases hjm : j < m
      · simp [hjm, Nat.lt_succ_of_lt hjm]
      · have : ¬ j < m + 1 := by
          intro hlt
          exact hj (Nat.le_antisymm (Nat.le_of_lt_succ hlt) (Nat.le_of_not_lt hjm))
        simp [hjm, this]

/--
Counterexample to claim C7: array_ptr::reset does not free unconditionally.
Resetting a buffer that owns allocation 0 at capacity 5 to the very same
reference with newLen 3 is a complete no-op: nothing is freed and the
capacity argument is ignored, because the body is guarded by if (ptr != p).
-/
theorem array_ptr_reset_not_unconditional :
    APWorld.reset ⟨some 0, 5, []⟩ (some 0) 3 = ⟨some 0, 5, []⟩ ∧
    (APWorld.reset ⟨some 0, 5, []⟩ (some 0) 3).freed = [] ∧
    (APWorld.reset ⟨some 0, 5, []⟩ (some 0) 3).boxLen ≠ 3 := by
  decide

/--
Claim C7, amended: array_ptr::reset(p, newLen) frees the currently owned
array and adopts the new reference and capacity exactly when p differs from
the currently held reference; when p equals it (including null on an empty
buffer) the call is a complete no-op and even the capacity argument is
ignored.
-/
theorem array_ptr_reset_frees_iff_different (w : APWorld) (p : Option Nat) (n : Nat) :
    (w.boxPtr ≠ p →
      APWorld.reset w p n = ⟨p, n, w.freed ++ w.boxPtr.toList⟩) ∧
    (w.boxPtr = p → APWorld.reset w p n = w) := by
  constructor <;> intro h <;> simp [APWorld.reset, h]

/--
Witness for array_ptr_reset_frees_iff_different at concrete inputs: resetting
a buffer owning allocation 0 to null frees allocation 0 and adopts capacity 2;
resetting a buffer owning allocation 3 to the same reference changes nothing.
-/
theorem array_ptr_reset_frees_iff_different_witness :
    APWorld.reset ⟨some 0, 5, []⟩ none 2 = ⟨none, 2, [0]⟩ ∧
    APWorld.reset ⟨some 3, 4, []⟩ (some 3) 9 = ⟨some 3, 4, []⟩ := by
  refine ⟨?_, ?_⟩
  · have h := (array_ptr_reset_frees_iff_different ⟨some 0, 5, []⟩ none 2).1 (by decide)
    simpa using h
  · exact (array_ptr_reset_frees_iff_different ⟨some 3, 4, []⟩ (some 3) 9).2 rfl

/--
Claim C1 names a code bug: unique_ptr move assignment never transfers the
referent.  The body (memory.hpp 70-77) runs delete ptr; ptr = nullptr;
move.ptr = nullptr; and never assigns move.ptr to this->ptr.  Evaluating the
embedded semantics on the failing input: box 0 is constructed owning
allocation 0, box 1 is default-constructed, then box 1 is move-assigned from
box 0.  Afterward box 1 is empty (it should own allocation 0), box 0 is
empty, and allocation 0 is neither owned by any box nor freed: it leaks.
-/
theorem unique_ptr_move_assign_drops_referent :
    getEntry (uRun [UOp.create 0, UOp.createNull 1, UOp.moveAssign 1 0]).boxes 1 =
      some none ∧
    getEntry (uRun [UOp.create 0, UOp.createNull 1, UOp.moveAssign 1 0]).boxes 0 =
      some none ∧
    (uRun [UOp.create 0, UOp.createNull 1, UOp.moveAssign 1 0]).allocated = [0] ∧
    (uRun [UOp.create 0, UOp.createNull 1, UOp.moveAssign 1 0]).freed = [] := by
  decide

/--
Claim C10: copy-assigning or move-assigning a shared_ptr to itself is a
complete no-op for every state of the world, because both operators are
guarded by if (this != &other) before anything is released: the held object
reference, the counter reference and every counter value are unchanged.
-/
theorem shared_ptr_self_assign_noop (s : SPState) (b : Nat) :
    spStep (SPOp.copyAssign b b) s = s ∧ spStep (SPOp.moveAssign b b) s = s := by
  constructor <;> simp [spStep]

theorem getD_eq_get {α : Type} (l : List α) (d : α) (i : Nat) (h : i < l.length) :
    l.getD i d = l.get ⟨i, h⟩ := by
  induction l generalizing i with
  | nil => simp at h
  | cons x xs ih =>
    cases i with
    | zero => rfl
    | succ j =>
      simp only [List.getD, List.get?, List.get]
      exact ih j (by simpa using h)

theorem getD_append_lt {α : Type} (l t : List α) (j : Nat) (d : α) (h : j < l.length) :
    (l ++ t).getD j d = l.getD j d := by
  induction l generalizing j with
  | nil => simp at h
  | cons x xs ih =>
    cases j with
    | zero => rfl
    | succ m =>
      simp only [List.cons_append, List.getD, List.get?]
      exact ih m (by simpa using h)

theorem getD_append_at_length {α : Type} (l : List α) (x d : α) :
    (l ++ [x]).getD l.length d = x := by
  induction l with
  | nil => rfl
  | cons y ys ih => exact ih

/--
Claim C9: constructing a GrowableString from a C string of n characters
yields size() = n, memory() = n + 1, and a character buffer holding exactly
the n characters followed by a null terminator at index n.
-/
theorem gstring_from_cstring_round_trip (s : List Char) :
    (GString.fromCString s).size = s.length ∧
    (GString.fromCString s).memory = s.length + 1 ∧
    (GString.fromCString s).c_string = s ++ [nullChar] := by
  refine ⟨rfl, rfl, ?_⟩
  show (copyLoop (s ++ [nullChar]) (List.replicate (s.length + 1) default)
      (s.length + 1)).set s.length nullChar = s ++ [nullChar]
  apply eq_of_getD _ _ default
  · rw [List.length_set, copyLoop_length, List.length_replicate]
    simp
  · intro j
    have hrep : s.length + 1 ≤ (List.replicate (s.length + 1) (default : Char)).length := by
      simp
    by_cases hj : j = s.length
    · subst hj
      have hlt : s.length < (copyLoop (s ++ [nullChar])
          (List.replicate (s.length + 1) default) (s.length + 1)).length := by
        rw [copyLoop_length, List.length_replicate]
        exact Nat.lt_succ_self _
      rw [getD_set_self _ _ _ _ hlt, getD_append_at_length]
    · rw [getD_set_other _ _ _ _ _ (fun e => hj e.symm),
        copyLoop_getD _ _ _ hrep j]
      by_cases hlt : j < s.length + 1
      · rw [if_pos hlt]
      · rw [if_neg hlt, getD_of_le_length _ _ _ (by simpa using Nat.le_of_not_lt hlt),
          getD_of_le_length _ _ _ (by simpa using Nat.le_of_not_lt hlt)]

/--
Claim C4: indexed access on an array_ptr of capacity C raises the
out-of-range condition with message "Index out of range" exactly when the
index is at least C, for every element type and every capacity including
zero; the thrown kind is catchable as out_of_range, as logic_error and as the
base exception; the mutable and immutable accessors agree; a failing access
leaves the buffer unchanged and a successful one returns the stored element.
-/
theorem array_ptr_index_bounds {α : Type} [Inhabited α] (vals : List α) (index : Nat) :
    array_ptr.getMut (array_ptr.ofList vals) index =
      array_ptr.getConst (array_ptr.ofList vals) index ∧
    (index ≥ vals.length →
      array_ptr.getConst (array_ptr.ofList vals) index =
        Except.error ⟨ExcKind.out_of_range, "Index out of range"⟩ ∧
      catches ExcKind.out_of_range ExcKind.out_of_range ∧
      catches ExcKind.out_of_range ExcKind.logic_error ∧
      catches ExcKind.out_of_range ExcKind.exception) ∧
    (∀ h : index < vals.length,
      array_ptr.getConst (array_ptr.ofList vals) index =
        Except.ok (vals.get ⟨index, h⟩)) ∧
    (array_ptr.getConstSt (array_ptr.ofList vals) index).1 = array_ptr.ofList vals := by
  refine ⟨rfl, ?_, ?_, rfl⟩
  · intro hge
    refine ⟨?_, by decide, by decide, by decide⟩
    simp [array_ptr.getConst, array_ptr.ofList, throwOutOfRange, hge]
  · intro hlt
    have hnot : ¬ index ≥ (array_ptr.ofList vals)._len := by
      simpa [array_ptr.ofList] using Nat.not_le_of_lt hlt
    simp only [array_ptr.getConst, if_neg hnot]
    rw [show (array_ptr.ofList vals).data = vals from rfl, getD_eq_get _ _ _ hlt]

/--
Witness for array_ptr_index_bounds: on a buffer of capacity 3 holding
10, 20, 30, the one-past-end access at index 3 raises out-of-range with
message "Index out of range", and the in-range access at index 1 returns 20.
-/
theorem array_ptr_index_bounds_witness :
    array_ptr.getConst (array_ptr.ofList [10, 20, 30]) 3 =
      Except.error ⟨ExcKind.out_of_range, "Index out of range"⟩ ∧
    array_ptr.getConst (array_ptr.ofList [10, 20, 30]) 1 = Except.ok 20 := by
  refine ⟨((array_ptr_index_bounds [10, 20, 30] 3).2.1 (by decide)).1, ?_⟩
  have h := (array_ptr_index_bounds [10, 20, 30] 1).2.2.1 (by decide)
  simpa using h

/--
Claim C5: array_ptr::realloc(buff, reduce_size) is a no-op when reduce_size
is false and buff is below the current capacity; otherwise the buffer ends
with capacity buff and its first min(buff, capacity) slots hold the original
values in order.
-/
theorem array_ptr_realloc_preserves {α : Type} [Inhabited α] (vals : List α)
    (buff : Nat) (reduce : Bool) :
    (reduce = false → buff < vals.length →
      (array_ptr.ofList vals).realloc buff reduce = array_ptr.ofList vals) ∧
    (reduce = true ∨ vals.length ≤ buff →
      ((array_ptr.ofList vals).realloc buff reduce)._len = buff ∧
      ((array_ptr.ofList vals).realloc buff reduce).data.length = buff ∧
      ∀ j : Nat, j < min buff vals.length →
        ((array_ptr.ofList vals).realloc buff reduce).data.getD j default =
          vals.getD j default) := by
  constructor
  · intro hred hlt
    simp [array_ptr.realloc, array_ptr.ofList, hred, hlt]
  · intro hcase
    have hF : (!reduce && decide (buff < (array_ptr.ofList vals)._len)) = false := by
      cases hcase with
      | inl h => simp [h]
      | inr h => simp [array_ptr.ofList, Nat.not_lt_of_le h]
    have hre : (array_ptr.ofList vals).realloc buff reduce =
        ⟨copyLoop (array_ptr.ofList vals).data (List.replicate buff default)
          (min buff (array_ptr.ofList vals)._len), buff⟩ := by
      simp [array_ptr.realloc, hF]
    refine ⟨by rw [hre], ?_, ?_⟩
    · rw [hre]
      simpa using copyLoop_length (array_ptr.ofList vals).data
        (List.replicate buff default) (min buff (array_ptr.ofList vals)._len)
    · intro j hj
      have hrep : min buff (array_ptr.ofList vals)._len ≤
          (List.replicate buff (default : α)).length := by
        simp [Nat.min_le_left]
      rw [hre]
      rw [copyLoop_getD _ _ _ hrep j]
      rw [if_pos (by simpa [array_ptr.ofList] using hj)]
      rfl

/--
Witness for array_ptr_realloc_preserves: growing a capacity-3 buffer holding
1, 2, 3 to capacity 5 keeps the three values; shrinking it to 2 with
reduce_size false is a no-op.
-/
theorem array_ptr_realloc_preserves_witness :
    ((array_ptr.ofList [1, 2, 3]).realloc 5 true)._len = 5 ∧
    ((array_ptr.ofList [1, 2, 3]).realloc 5 true).data.getD 2 default = 3 ∧
    (array_ptr.ofList [1, 2, 3]).realloc 2 false = array_ptr.ofList [1, 2, 3] := by
  refine ⟨((array_ptr_realloc_preserves [1, 2, 3] 5 true).2 (Or.inl rfl)).1, ?_, ?_⟩
  · have h := ((array_ptr_realloc_preserves [1, 2, 3] 5 true).2 (Or.inl rfl)).2.2 2
      (by decide)
    simpa using h
  · exact (array_ptr_realloc_preserves [1, 2, 3] 2 false).1 rfl (by decide)

theorem copyCtor_eq_of_wf {α : Type} [Inhabited α] (a : array_ptr α)
    (h : a.data.length = a._len) : a.copyCtor = a := by
  cases a with
  | mk d n =>
    simp only [array_ptr.copyCtor]
    simp only at h
    subst h
    congr 1
    apply eq_of_getD _ _ default
    · rw [copyLoop_length, List.length_replicate]
    · intro j
      rw [copyLoop_getD _ _ _ (by simp) j]
      by_cases hj : j < d.length
      · rw [if_pos hj]
      · rw [if_neg hj, getD_of_le_length _ _ _ (by simpa using Nat.le_of_not_lt hj),
          getD_of_le_length _ _ _ (Nat.le_of_not_lt hj)]

/--
Counterexample to claim C8: GrowableString move construction does not empty
the source buffer.  Move-constructing from the string built from "abc" leaves
the source completely unchanged: its buffer still has capacity 4 and still
holds the characters, because the initializer ptr(other.ptr) selects the
array_ptr copy constructor, not a move.
-/
theorem gstring_move_ctor_keeps_source_buffer :
    (GString.moveCtor (GString.fromCString ['a', 'b', 'c'])).2 =
      GString.fromCString ['a', 'b', 'c'] ∧
    (GString.moveCtor (GString.fromCString ['a', 'b', 'c'])).2.ptr._len = 4 ∧
    (GString.moveCtor (GString.fromCString ['a', 'b', 'c'])).2.ptr.data ≠ [] := by
  refine ⟨rfl, rfl, by decide⟩

/--
Claim C8, amended: GrowableString move assignment transfers the Buffer (the
destination adopts the source's character array and capacity, the source's
buffer is emptied to null with capacity 0) and copies the two scalar fields,
leaving the source's stale len and alloc values in place.  Move construction
instead deep-copies the Buffer through the array_ptr copy constructor and
leaves the source entirely unchanged, scalars and buffer alike.
-/
theorem gstring_move_semantics (dst src : GString)
    (h : src.ptr.data.length = src.ptr._len) :
    (GString.moveCtor src).1.ptr = src.ptr ∧
    (GString.moveCtor src).1.len = src.len ∧
    (GString.moveCtor src).1.alloc = src.alloc ∧
    (GString.moveCtor src).2 = src ∧
    (GString.moveAssignOp dst src).1.ptr.data = src.ptr.data ∧
    (GString.moveAssignOp dst src).1.ptr._len = src.ptr._len ∧
    (GString.moveAssignOp dst src).1.len = src.len ∧
    (GString.moveAssignOp dst src).1.alloc = src.alloc ∧
    (GString.moveAssignOp dst src).2.ptr = (⟨[], 0⟩ : array_ptr Char) ∧
    (GString.moveAssignOp dst src).2.len = src.len ∧
    (GString.moveAssignOp dst src).2.alloc = src.alloc :=
  ⟨copyCtor_eq_of_wf src.ptr h, rfl, rfl, rfl, rfl, rfl, rfl, rfl, rfl, rfl, rfl⟩

/--
Witness for gstring_move_semantics: move-assigning the string built from
"ab" into the string built from "x" empties the source buffer while the
source keeps its stale len 2, and move construction from "ab" leaves its
source unchanged.
-/
theorem gstring_move_semantics_witness :
    (GString.moveCtor (GString.fromCString ['a', 'b'])).2 =
      GString.fromCString ['a', 'b'] ∧
    (GString.moveAssignOp (GString.fromCString ['x'])
      (GString.fromCString ['a', 'b'])).2.ptr = (⟨[], 0⟩ : array_ptr Char) ∧
    (GString.moveAssignOp (GString.fromCString ['x'])
      (GString.fromCString ['a', 'b'])).2.len = 2 := by
  have h := gstring_move_semantics (GString.fromCString ['x'])
    (GString.fromCString ['a', 'b']) (by decide)
  obtain ⟨-, -, -, h4, -, -, -, -, h9, h10, -⟩ := h
  refine ⟨h4, h9, ?_⟩
  rw [h10]
  rfl

theorem push_back_len {α : Type} [Inhabited α] (v : vec α) (x : α) :
    (v.push_back x)._len = v._len + 1 := by
  by_cases h : v._len ≥ v._alloc <;> simp [vec.push_back, h]

theorem push_back_alloc {α : Type} [Inhabited α] (v : vec α) (x : α) :
    (v.push_back x)._alloc =
      if v._len ≥ v._alloc then (if v._alloc > 0 then v._alloc * 2 else 1)
      else v._alloc := by
  by_cases h : v._len ≥ v._alloc <;> simp [vec.push_back, h]

theorem vec_appendN_spec {α : Type} [Inhabited α] (vals : Nat → α) (k : Nat) :
    (vec.appendN α vals k)._len = k ∧
    (vec.appendN α vals k)._alloc = (if k = 0 then 1 else 2 ^ Nat.clog 2 k) := by
  induction k with
  | zero => exact ⟨rfl, rfl⟩
  | succ m ih =>
    obtain ⟨ihlen, ihalloc⟩ := ih
    have hb : (1 : Nat) < 2 := by decide
    have hstep : vec.appendN α vals (m + 1) =
        (vec.appendN α vals m).push_back (vals m) := rfl
    refine ⟨by rw [hstep, push_back_len, ihlen], ?_⟩
    rw [hstep, push_back_alloc, ihlen, ihalloc]
    by_cases hm : m = 0
    · subst hm
      norm_num [Nat.clog_one_right]
    · rw [if_neg hm, if_neg (Nat.succ_ne_zero m)]
      have hle : m ≤ 2 ^ Nat.clog 2 m := Nat.le_pow_clog hb m
      have hppos : 0 < 2 ^ Nat.clog 2 m := Nat.pos_pow_of_pos _ (by decide)
      by_cases hgrow : m ≥ 2 ^ Nat.clog 2 m
      · have heq : m = 2 ^ Nat.clog 2 m := Nat.le_antisymm hle hgrow
        have hclog : Nat.clog 2 (m + 1) = Nat.clog 2 m + 1 := by
          apply Nat.le_antisymm
          · rw [← Nat.le_pow_iff_clog_le hb, pow_succ]
            omega
          · rw [Nat.succ_le_iff, ← Nat.pow_lt_iff_lt_clog hb]
            omega
        rw [if_pos hgrow, if_pos hppos, hclog, pow_succ]
      · have hlt : m < 2 ^ Nat.clog 2 m := Nat.lt_of_not_le hgrow
        have hmpos : 1 ≤ m := Nat.one_le_iff_ne_zero.mpr hm
        have hcpos : 1 ≤ Nat.clog 2 m := by
          by_contra hcz
          have hz : Nat.clog 2 m = 0 := by omega
          rw [hz, pow_zero] at hlt
          omega
        have hclog : Nat.clog 2 (m + 1) = Nat.clog 2 m := by
          apply Nat.le_antisymm
          · rw [← Nat.le_pow_iff_clog_le hb]
            omega
          · have h1 : 2 ^ (Nat.clog 2 m - 1) < m := by
              rw [Nat.pow_lt_iff_lt_clog hb]
              omega
            have h2 : 2 ^ (Nat.clog 2 m - 1) < m + 1 := Nat.lt_succ_of_lt h1
            rw [Nat.pow_lt_iff_lt_clog hb] at h2
            omega
        rw [if_neg hgrow, hclog]

/--
Counterexample to claim C3: the capacity sequence of a default-constructed
DynamicArray under repeated append is not 1,1,2,2,4,4,4,4,8.  Evaluating the
embedded push_back, the capacities observed after appends 1 through 9 are
1,2,4,4,8,8,8,8,16, and including the initial capacity in front the sequence
is 1,1,2,4,4,8,8,8,8; under either alignment the claimed value after the
third append (2) is wrong, the capacity there is 4.
-/
theorem vec_growth_sequence_counterexample :
    (List.range 9).map (fun i => (vec.appendN Nat (fun n => n) (i + 1))._alloc) =
      [1, 2, 4, 4, 8, 8, 8, 8, 16] ∧
    (List.range 9).map (fun i => (vec.appendN Nat (fun n => n) (i + 1))._alloc) ≠
      [1, 1, 2, 2, 4, 4, 4, 4, 8] ∧
    (List.range 9).map (fun i => (vec.appendN Nat (fun n => n) i)._alloc) =
      [1, 1, 2, 4, 4, 8, 8, 8, 8] ∧
    (vec.appendN Nat (fun n => n) 3)._alloc = 4 := by
  decide

/--
Claim C3, amended: for a DynamicArray started at capacity 1 via the default
constructor, size() after k appends equals k, the initial capacity is 1, and
the capacity after k >= 1 appends is 2 to the power ceil(log2 k), so the
observed capacity sequence is 1,2,4,4,8,8,8,8,16,... for appends 1,2,3,...
(capacity doubles exactly when the array is full before the append, i.e.
when the new length would exceed the current capacity, with a floor of 1
when capacity was 0).
-/
theorem vec_growth_law {α : Type} [Inhabited α] (vals : Nat → α) (k : Nat) :
    (vec.appendN α vals k)._len = k ∧
    (vec.appendN α vals 0)._alloc = 1 ∧
    (1 ≤ k → (vec.appendN α vals k)._alloc = 2 ^ Nat.clog 2 k) := by
  refine ⟨(vec_appendN_spec vals k).1, rfl, fun hk => ?_⟩
  rw [(vec_appendN_spec vals k).2, if_neg (by omega)]

/--
Witness for vec_growth_law: after 5 appends onto a default-constructed
vector of Nat, the length is 5 and the capacity is 8.
-/
theorem vec_growth_law_witness :
    (vec.appendN Nat (fun n => n) 5)._len = 5 ∧
    (vec.appendN Nat (fun n => n) 5)._alloc = 2 ^ Nat.clog 2 5 := by
  have h := vec_growth_law (fun n => n) 5
  exact ⟨h.1, h.2.2 (by decide)⟩

theorem getD_take_lt {α : Type} (l : List α) (m j : Nat) (d : α) (h : j < m) :
    (l.take m).getD j d = l.getD j d := by
  induction l generalizing m j with
  | nil => simp [List.take]
  | cons x xs ih =>
    cases m with
    | zero => simp at h
    | succ m2 =>
      cases j with
      | zero => rfl
      | succ j2 =>
        simp only [List.take, List.getD, List.get?]
        exact ih m2 j2 (by omega)

theorem getD_append_length_cons {α : Type} (l : List α) (y : α) (t : List α) (d : α) :
    (l ++ y :: t).getD l.length d = y := by
  induction l with
  | nil => rfl
  | cons z zs ih => exact ih

theorem getD_append_ge {α : Type} (l t : List α) (j : Nat) (d : α)
    (h : l.length ≤ j) : (l ++ t).getD j d = t.getD (j - l.length) d := by
  induction l generalizing j with
  | nil => simp
  | cons x xs ih =>
    cases j with
    | zero => simp at h
    | succ m =>
      show (xs ++ t).getD m d = t.getD (m + 1 - (x :: xs).length) d
      rw [ih m (by simpa using h)]
      congr 1
      simp only [List.length_cons]
      omega

theorem getD_drop {α : Type} (l : List α) (i m : Nat) (d : α) :
    (l.drop i).getD m d = l.getD (i + m) d := by
  induction l generalizing i with
  | nil => simp [List.drop]
  | cons x xs ih =>
    cases i with
    | zero => simp
    | succ i2 =>
      show (xs.drop i2).getD m d = (x :: xs).getD (i2 + 1 + m) d
      rw [ih i2]
      have hidx : i2 + 1 + m = (i2 + m) + 1 := by omega
      rw [hidx]
      rfl

theorem shiftLoop_length {α : Type} [Inhabited α] (data : List α) (index i : Nat) :
    (shiftLoop data index i).length = data.length := by
  induction i generalizing data with
  | zero => rfl
  | succ m ih =>
    by_cases h : m + 1 > index
    · rw [shiftLoop, if_pos h, ih, List.length_set]
    · rw [shiftLoop, if_neg h]

theorem shiftLoop_getD {α : Type} [Inhabited α] (data : List α) (index i : Nat)
    (hi : i < data.length) (j : Nat) :
    (shiftLoop data index i).getD j default =
      if index < j ∧ j ≤ i then data.getD (j - 1) default
      else data.getD j default := by
  induction i generalizing data with
  | zero =>
    rw [if_neg (by omega)]
    rfl
  | succ m ih =>
    by_cases h : m + 1 > index
    · rw [shiftLoop, if_pos h]
      have hm : m < (data.set (m + 1) (data.getD m default)).length := by
        rw [List.length_set]
        omega
      rw [ih _ hm]
      by_cases hc : index < j ∧ j ≤ m
      · rw [if_pos hc, if_pos (by omega)]
        rw [getD_set_other _ _ _ _ _ (by omega)]
      · rw [if_neg hc]
        by_cases hj : j = m + 1
        · subst hj
          rw [getD_set_self _ _ _ _ hi, if_pos (by omega)]
          congr 1
        · rw [getD_set_other _ _ _ _ _ (fun e => hj e.symm), if_neg (by omega)]
    · rw [shiftLoop, if_neg h, if_neg (by omega)]

theorem push_back_at_eq_grow {α : Type} [Inhabited α] (v : vec α) (x : α) (i : Nat)
    (h : ¬ i > v._len) (hg : v._len + 1 > v._alloc) :
    v.push_back_at x i = Except.ok
      ⟨(shiftLoop (copyLoop v._data
          (List.replicate (if v._alloc > 0 then v._alloc * 2 else 1) default) v._len)
          i v._len).set i x,
        v._len + 1, if v._alloc > 0 then v._alloc * 2 else 1⟩ := by
  rw [vec.push_back_at, if_neg h]
  simp only [if_pos hg]

theorem push_back_at_eq_nogrow {α : Type} [Inhabited α] (v : vec α) (x : α) (i : Nat)
    (h : ¬ i > v._len) (hg : ¬ v._len + 1 > v._alloc) :
    v.push_back_at x i = Except.ok
      ⟨(shiftLoop v._data i v._len).set i x, v._len + 1, v._alloc⟩ := by
  rw [vec.push_back_at, if_neg h]
  simp only [if_neg hg]

theorem getD_insert_self {α : Type} (as : List α) (x d : α) (i : Nat)
    (hi : i ≤ as.length) : (as.take i ++ x :: as.drop i).getD i d = x := by
  have h : (as.take i).length = i := by
    rw [List.length_take]
    omega
  calc (as.take i ++ x :: as.drop i).getD i d
      = (as.take i ++ x :: as.drop i).getD (as.take i).length d := by rw [h]
    _ = x := getD_append_length_cons _ _ _ _

theorem insert_core {α : Type} [Inhabited α] (as data1 : List α) (alloc1 : Nat)
    (x : α) (i : Nat) (hi : i ≤ as.length)
    (hlen1 : data1.length = alloc1)
    (hcap : as.length + 1 ≤ alloc1)
    (hag : ∀ j : Nat, j < as.length → data1.getD j default = as.getD j default) :
    ((shiftLoop data1 i as.length).set i x).length = alloc1 ∧
    ((shiftLoop data1 i as.length).set i x).take (as.length + 1) =
      as.take i ++ x :: as.drop i := by
  have hsl : (shiftLoop data1 i as.length).length = alloc1 := by
    rw [shiftLoop_length, hlen1]
  have hset : ((shiftLoop data1 i as.length).set i x).length = alloc1 := by
    rw [List.length_set, hsl]
  have hn : as.length < data1.length := by omega
  have htakei : (as.take i).length = i := by
    rw [List.length_take]
    omega
  refine ⟨hset, ?_⟩
  apply eq_of_getD _ _ default
  · rw [List.length_take, hset]
    simp only [List.length_append, List.length_cons, List.length_drop, htakei]
    omega
  · intro j
    by_cases hj : j < as.length + 1
    · rw [getD_take_lt _ _ _ _ hj]
      by_cases hji : j = i
      · subst hji
        have hjlt : j < ((shiftLoop data1 j as.length)).length := by omega
        rw [getD_set_self _ _ _ _ hjlt, getD_insert_self as x default j hi]
      · rw [getD_set_other _ _ _ _ _ (fun e => hji e.symm), shiftLoop_getD _ _ _ hn j]
        by_cases hij : i < j
        · have hjn : j ≤ as.length := by omega
          rw [if_pos ⟨hij, hjn⟩]
          have hL : data1.getD (j - 1) default = as.getD (j - 1) default :=
            hag (j - 1) (by omega)
          rw [hL, getD_append_ge _ _ _ _ (by omega), htakei]
          have hsub : j - i = (j - i - 1) + 1 := by omega
          rw [hsub]
          show as.getD (j - 1) default = (as.drop i).getD (j - i - 1) default
          rw [getD_drop]
          congr 1
          omega
        · have hjlti : j < i := by omega
          rw [if_neg (by omega)]
          rw [hag j (by omega), getD_append_lt _ _ _ _ (by omega), getD_take_lt _ _ _ _ hjlti]
    · rw [getD_of_le_length _ _ _ (by rw [List.length_take, hset]; omega),
        getD_of_le_length _ _ _ (by
          simp only [List.length_append, List.length_cons, List.length_drop, htakei]
          omega)]

/--
Claim C6: on a DynamicArray logically containing a0 .. a(n-1), the indexed
push_back inserts x at index i, yielding a0 .. a(i-1), x, ai .. a(n-1) with
the length incremented, for every i in 0 .. n (growing by the doubling rule
when length + 1 > capacity); for i > n it raises the out-of-range condition
with message "Index is out of bounds" and, being a pure embedding of a call
that throws before mutating anything, leaves the sequence unchanged.
-/
theorem vec_insert_at {α : Type} [Inhabited α] (v : vec α) (as : List α) (x : α)
    (i : Nat) (hwf : vecWf v as) :
    (i ≤ as.length → ∃ w : vec α, v.push_back_at x i = Except.ok w ∧
      w._len = as.length + 1 ∧ vecWf w (as.take i ++ x :: as.drop i)) ∧
    (i > as.length → v.push_back_at x i =
      Except.error ⟨ExcKind.out_of_range, "Index is out of bounds"⟩) := by
  obtain ⟨d0, l0, a0⟩ := v
  obtain ⟨hlen, hdata, hla, htake⟩ := hwf
  have hlen0 : l0 = as.length := hlen
  have hdata0 : d0.length = a0 := hdata
  have hla0 : l0 ≤ a0 := hla
  have htake0 : d0.take as.length = as := htake
  clear hlen hdata hla htake
  subst hlen0
  have hag0 : ∀ j : Nat, j < as.length → d0.getD j default = as.getD j default := by
    intro j hj
    rw [← htake0, getD_take_lt _ _ _ _ hj]
  have hrl : (as.take i ++ x :: as.drop i).length = as.length + 1 → True := fun _ => trivial
  constructor
  · intro hi
    have hguard : ¬ i > (⟨d0, as.length, a0⟩ : vec α)._len := by
      show ¬ i > as.length
      omega
    have hrlen : (as.take i ++ x :: as.drop i).length = as.length + 1 := by
      simp only [List.length_append, List.length_cons, List.length_drop, List.length_take]
      omega
    by_cases hg : as.length + 1 > a0
    · have hcap : as.length + 1 ≤ (if a0 > 0 then a0 * 2 else 1) := by
        by_cases hz : a0 > 0
        · rw [if_pos hz]
          omega
        · rw [if_neg hz]
          omega
      have hd1len : (copyLoop d0
          (List.replicate (if a0 > 0 then a0 * 2 else 1) default) as.length).length =
          (if a0 > 0 then a0 * 2 else 1) := by
        rw [copyLoop_length, List.length_replicate]
      have hag : ∀ j : Nat, j < as.length →
          (copyLoop d0 (List.replicate (if a0 > 0 then a0 * 2 else 1) default)
            as.length).getD j default = as.getD j default := by
        intro j hj
        rw [copyLoop_getD _ _ _ (by rw [List.length_replicate]; omega) j,
          if_pos (by omega), hag0 j hj]
      have hcore := insert_core as
        (copyLoop d0 (List.replicate (if a0 > 0 then a0 * 2 else 1) default) as.length)
        (if a0 > 0 then a0 * 2 else 1) x i hi hd1len hcap hag
      refine ⟨_, push_back_at_eq_grow ⟨d0, as.length, a0⟩ x i hguard hg, rfl, ?_⟩
      refine ⟨?_, hcore.1, ?_, ?_⟩
      · rw [hrlen]
      · show as.length + 1 ≤ (if a0 > 0 then a0 * 2 else 1)
        exact hcap
      · rw [hrlen]
        exact hcore.2
    · have hcap : as.length + 1 ≤ a0 := by omega
      have hcore := insert_core as d0 a0 x i hi hdata0 hcap hag0
      refine ⟨_, push_back_at_eq_nogrow ⟨d0, as.length, a0⟩ x i hguard
        (by show ¬ as.length + 1 > a0; omega), rfl, ?_⟩
      refine ⟨?_, hcore.1, ?_, ?_⟩
      · rw [hrlen]
      · show as.length + 1 ≤ a0
        exact hcap
      · rw [hrlen]
        exact hcore.2
  · intro hi
    rw [vec.push_back_at, if_pos (by show i > as.length; omega)]
    rfl

/--
Witness for vec_insert_at: inserting 9 at index 1 into the vector built by
appending 10, 20, 30 yields the sequence 10, 9, 20, 30 with length 4, and
inserting at the one-past-one-past-end index 4 raises out-of-range with
message "Index is out of bounds".
-/
theorem vec_insert_at_witness :
    (∃ w : vec Nat, (vec.appendN Nat (fun n => 10 * (n + 1)) 3).push_back_at 9 1 =
        Except.ok w ∧ w._len = 4 ∧
        vecWf w ([10, 20, 30].take 1 ++ 9 :: [10, 20, 30].drop 1)) ∧
    (vec.appendN Nat (fun n => 10 * (n + 1)) 3).push_back_at 9 4 =
      Except.error ⟨ExcKind.out_of_range, "Index is out of bounds"⟩ := by
  have hwf : vecWf (vec.appendN Nat (fun n => 10 * (n + 1)) 3) [10, 20, 30] := by
    refine ⟨by decide, by decide, by decide, by decide⟩
  have h := vec_insert_at (vec.appendN Nat (fun n => 10 * (n + 1)) 3) [10, 20, 30] 9 1 hwf
  have h4 := vec_insert_at (vec.appendN Nat (fun n => 10 * (n + 1)) 3) [10, 20, 30] 9 4 hwf
  exact ⟨h.1 (by decide), h4.2 (by decide)⟩

theorem getEntry_cons_self {β : Type} (l : List (Nat × β)) (k : Nat) (v : β) :
    getEntry ((k, v) :: l) k = some v := by
  simp [getEntry, List.find?]

theorem getEntry_cons_ne {β : Type} (l : List (Nat × β)) (k k2 : Nat) (v : β)
    (h : k ≠ k2) : getEntry ((k, v) :: l) k2 = getEntry l k2 := by
  simp [getEntry, List.find?, h]

theorem getEntry_some_mem {β : Type} {l : List (Nat × β)} {k : Nat} {v : β}
    (h : getEntry l k = some v) : (k, v) ∈ l := by
  induction l with
  | nil => simp [getEntry] at h
  | cons a l ih =>
    obtain ⟨a1, a2⟩ := a
    by_cases hk : a1 = k
    · subst hk
      rw [getEntry_cons_self] at h
      have hv : a2 = v := by
        injection h
      rw [← hv]
      exact List.mem_cons_self _ _
    · rw [getEntry_cons_ne _ _ _ _ hk] at h
      exact List.mem_cons_of_mem _ (ih h)

theorem getEntry_none_not_mem {β : Type} {l : List (Nat × β)} {k : Nat}
    (h : getEntry l k = none) : k ∉ l.map Prod.fst := by
  induction l with
  | nil => simp
  | cons a l ih =>
    obtain ⟨a1, a2⟩ := a
    by_cases hk : a1 = k
    · subst hk
      rw [getEntry_cons_self] at h
      exact absurd h (by simp)
    · rw [getEntry_cons_ne _ _ _ _ hk] at h
      simp only [List.map_cons, List.mem_cons, not_or]
      exact ⟨fun e => hk e.symm, ih h⟩

theorem setEntry_cons_eq {β : Type} (l : List (Nat × β)) (k : Nat) (v x : β) :
    setEntry ((k, v) :: l) k x = (k, x) :: setEntry l k x := by
  simp [setEntry]

theorem setEntry_cons_diff {β : Type} (l : List (Nat × β)) (a1 k : Nat) (a2 x : β)
    (h : ¬ a1 = k) : setEntry ((a1, a2) :: l) k x = (a1, a2) :: setEntry l k x := by
  simp [setEntry, h]

theorem removeEntry_cons_eq {β : Type} (l : List (Nat × β)) (k : Nat) (v : β) :
    removeEntry ((k, v) :: l) k = removeEntry l k := by
  simp [removeEntry, List.filter_cons]

theorem removeEntry_cons_diff {β : Type} (l : List (Nat × β)) (a1 k : Nat) (a2 : β)
    (h : ¬ a1 = k) : removeEntry ((a1, a2) :: l) k = (a1, a2) :: removeEntry l k := by
  simp [removeEntry, List.filter_cons, h]

theorem setEntry_of_not_mem {β : Type} (l : List (Nat × β)) (k : Nat) (x : β)
    (h : k ∉ l.map Prod.fst) : setEntry l k x = l := by
  induction l with
  | nil => rfl
  | cons a l ih =>
    obtain ⟨a1, a2⟩ := a
    simp only [List.map_cons, List.mem_cons, not_or] at h
    have h1 : ¬ a1 = k := fun e => h.1 e.symm
    rw [setEntry_cons_diff _ _ _ _ _ h1, ih h.2]

theorem removeEntry_of_not_mem {β : Type} (l : List (Nat × β)) (k : Nat)
    (h : k ∉ l.map Prod.fst) : removeEntry l k = l := by
  induction l with
  | nil => rfl
  | cons a l ih =>
    obtain ⟨a1, a2⟩ := a
    simp only [List.map_cons, List.mem_cons, not_or] at h
    have h1 : ¬ a1 = k := fun e => h.1 e.symm
    rw [removeEntry_cons_diff _ _ _ _ h1, ih h.2]

theorem keys_setEntry {β : Type} (l : List (Nat × β)) (k : Nat) (x : β) :
    (setEntry l k x).map Prod.fst = l.map Prod.fst := by
  induction l with
  | nil => rfl
  | cons a l ih =>
    obtain ⟨a1, a2⟩ := a
    by_cases hk : a1 = k
    · subst hk
      rw [setEntry_cons_eq]
      simp only [List.map_cons]
      exact congrArg _ ih
    · rw [setEntry_cons_diff _ _ _ _ _ hk]
      simp only [List.map_cons]
      exact congrArg _ ih

theorem setEntry_mem {β : Type} {l : List (Nat × β)} {k : Nat} {x : β} {q : Nat × β}
    (h : q ∈ setEntry l k x) : q ∈ l ∨ q = (k, x) := by
  simp only [setEntry, List.mem_map] at h
  obtain ⟨p, hp, he⟩ := h
  by_cases hk : p.1 = k
  · rw [if_pos hk] at he
    right
    exact he.symm
  · rw [if_neg hk] at he
    left
    rw [← he]
    exact hp

theorem removeEntry_mem {β : Type} {l : List (Nat × β)} {k : Nat} {q : Nat × β}
    (h : q ∈ removeEntry l k) : q ∈ l ∧ q.1 ≠ k := by
  simp only [removeEntry, List.mem_filter, decide_eq_true_eq] at h
  exact h

theorem keys_removeEntry_nodup {β : Type} (l : List (Nat × β)) (k : Nat)
    (h : (l.map Prod.fst).Nodup) : ((removeEntry l k).map Prod.fst).Nodup :=
  ((List.filter_sublist l).map Prod.fst).nodup h

theorem setEntry_setEntry {β : Type} (l : List (Nat × β)) (k : Nat) (x y : β) :
    setEntry (setEntry l k x) k y = setEntry l k y := by
  induction l with
  | nil => rfl
  | cons a l ih =>
    obtain ⟨a1, a2⟩ := a
    by_cases hk : a1 = k
    · subst hk
      rw [setEntry_cons_eq, setEntry_cons_eq, setEntry_cons_eq, ih]
    · rw [setEntry_cons_diff _ _ _ _ _ hk, setEntry_cons_diff _ _ _ _ _ hk,
        setEntry_cons_diff _ _ _ _ _ hk, ih]

theorem removeEntry_setEntry {β : Type} (l : List (Nat × β)) (k : Nat) (x : β) :
    removeEntry (setEntry l k x) k = removeEntry l k := by
  induction l with
  | nil => rfl
  | cons a l ih =>
    obtain ⟨a1, a2⟩ := a
    by_cases hk : a1 = k
    · subst hk
      rw [setEntry_cons_eq, removeEntry_cons_eq, removeEntry_cons_eq, ih]
    · rw [setEntry_cons_diff _ _ _ _ _ hk, removeEntry_cons_diff _ _ _ _ hk,
        removeEntry_cons_diff _ _ _ _ hk, ih]

theorem getEntry_setEntry_ne {β : Type} (l : List (Nat × β)) (k k2 : Nat) (x : β)
    (h : k ≠ k2) : getEntry (setEntry l k x) k2 = getEntry l k2 := by
  induction l with
  | nil => rfl
  | cons a l ih =>
    obtain ⟨a1, a2⟩ := a
    by_cases hk : a1 = k
    · subst hk
      rw [setEntry_cons_eq, getEntry_cons_ne _ _ _ _ h, getEntry_cons_ne _ _ _ _ h, ih]
    · rw [setEntry_cons_diff _ _ _ _ _ hk]
      by_cases hk2 : a1 = k2
      · subst hk2
        rw [getEntry_cons_self, getEntry_cons_self]
      · rw [getEntry_cons_ne _ _ _ _ hk2, getEntry_cons_ne _ _ _ _ hk2, ih]

theorem getEntry_setEntry_self {β : Type} (l : List (Nat × β)) (k : Nat) (x : β)
    (h : k ∈ l.map Prod.fst) : getEntry (setEntry l k x) k = some x := by
  induction l with
  | nil => simp at h
  | cons a l ih =>
    obtain ⟨a1, a2⟩ := a
    by_cases hk : a1 = k
    · subst hk
      rw [setEntry_cons_eq, getEntry_cons_self]
    · rw [setEntry_cons_diff _ _ _ _ _ hk, getEntry_cons_ne _ _ _ _ hk]
      apply ih
      simp only [List.map_cons, List.mem_cons] at h
      rcases h with h | h
      · exact absurd h.symm hk
      · exact h

theorem setEntry_self_eq {β : Type} (l : List (Nat × β)) (k : Nat) (v : β)
    (hnd : (l.map Prod.fst).Nodup) (hmem : (k, v) ∈ l) : setEntry l k v = l := by
  induction l with
  | nil => cases hmem
  | cons a l ih =>
    obtain ⟨a1, a2⟩ := a
    simp only [List.map_cons, List.nodup_cons] at hnd
    rcases List.mem_cons.mp hmem with he | hm
    · injection he with h1 h2
      subst h1
      subst h2
      rw [setEntry_cons_eq, setEntry_of_not_mem l k v hnd.1]
    · have hkmem : k ∈ l.map Prod.fst := List.mem_map.mpr ⟨(k, v), hm, rfl⟩
      have h1 : ¬ a1 = k := fun e => hnd.1 (by rw [e]; exact hkmem)
      rw [setEntry_cons_diff _ _ _ _ _ h1, ih hnd.2 hm]

theorem countP_setEntry {β : Type} (l : List (Nat × β)) (k : Nat) (v x : β)
    (p : Nat × β → Bool) (hnd : (l.map Prod.fst).Nodup) (hmem : (k, v) ∈ l) :
    (setEntry l k x).countP p + (if p (k, v) then 1 else 0) =
      l.countP p + (if p (k, x) then 1 else 0) := by
  induction l with
  | nil => cases hmem
  | cons a l ih =>
    obtain ⟨a1, a2⟩ := a
    simp only [List.map_cons, List.nodup_cons] at hnd
    rcases List.mem_cons.mp hmem with he | hm
    · injection he with h1 h2
      subst h1
      subst h2
      rw [setEntry_cons_eq, setEntry_of_not_mem l k x hnd.1,
        List.countP_cons, List.countP_cons]
      by_cases hp1 : p (k, v) = true <;> by_cases hp2 : p (k, x) = true <;>
        simp [hp1, hp2]
    · have hkmem : k ∈ l.map Prod.fst := List.mem_map.mpr ⟨(k, v), hm, rfl⟩
      have h1 : ¬ a1 = k := fun e => hnd.1 (by rw [e]; exact hkmem)
      rw [setEntry_cons_diff _ _ _ _ _ h1, List.countP_cons, List.countP_cons]
      have hih := ih hnd.2 hm
      omega

theorem countP_removeEntry {β : Type} (l : List (Nat × β)) (k : Nat) (v : β)
    (p : Nat × β → Bool) (hnd : (l.map Prod.fst).Nodup) (hmem : (k, v) ∈ l) :
    (removeEntry l k).countP p + (if p (k, v) then 1 else 0) = l.countP p := by
  induction l with
  | nil => cases hmem
  | cons a l ih =>
    obtain ⟨a1, a2⟩ := a
    simp only [List.map_cons, List.nodup_cons] at hnd
    rcases List.mem_cons.mp hmem with he | hm
    · injection he with h1 h2
      subst h1
      subst h2
      rw [removeEntry_cons_eq, removeEntry_of_not_mem l k hnd.1, List.countP_cons]
    · have hkmem : k ∈ l.map Prod.fst := List.mem_map.mpr ⟨(k, v), hm, rfl⟩
      have h1 : ¬ a1 = k := fun e => hnd.1 (by rw [e]; exact hkmem)
      rw [removeEntry_cons_diff _ _ _ _ h1, List.countP_cons, List.countP_cons]
      have hih := ih hnd.2 hm
      omega

theorem nodup_append_singleton {α : Type} (l : List α) (a : α)
    (hnd : l.Nodup) (hna : a ∉ l) : (l ++ [a]).Nodup := by
  induction l with
  | nil => simp
  | cons x xs ih =>
    simp only [List.nodup_cons] at hnd
    simp only [List.mem_cons] at hna
    push_neg at hna
    simp only [List.cons_append, List.nodup_cons]
    refine ⟨?_, ih hnd.2 hna.2⟩
    intro hx
    rcases List.mem_append.mp hx with h | h
    · exact hnd.1 h
    · simp only [List.mem_singleton] at h
      exact hna.1 h.symm

theorem refCtr_pos_of_mem {s : SPState} {q : Nat × SBox} {c : Nat}
    (hq : q ∈ s.boxes) (hc : q.2.counter = some c) : 0 < refCtr s c := by
  refine List.countP_pos_iff.mpr ⟨q, hq, ?_⟩
  simp [hc]

theorem countP_congr_mem {A : Type} (l : List A) (p q : A → Bool)
    (h : ∀ a ∈ l, p a = q a) : l.countP p = l.countP q := by
  induction l with
  | nil => rfl
  | cons x xs ih =>
    rw [List.countP_cons, List.countP_cons, h x (List.mem_cons_self _ _),
      ih (fun a ha => h a (List.mem_cons_of_mem _ ha))]

theorem refObj_eq_refCtr {s : SPState} {b : Nat} {v : SBox} {o c : Nat}
    (hco : ∀ p ∈ s.boxes, ∀ q ∈ s.boxes,
      ((p.2 : SBox).ptr = (q.2 : SBox).ptr ↔ (p.2 : SBox).counter = q.2.counter))
    (hmem : (b, v) ∈ s.boxes) (ho : v.ptr = some o) (hc : v.counter = some c) :
    refObj s o = refCtr s c := by
  refine countP_congr_mem _ _ _ (fun q hq => ?_)
  have h := hco (b, v) hmem q hq
  rw [ho, hc] at h
  by_cases hp : q.2.ptr = some o
  · simp [hp, (h.mp hp.symm).symm]
  · have hcq : ¬ q.2.counter = some c := fun e => hp (h.mpr e.symm).symm
    simp [hp, hcq]

theorem spinv_consNull {s : SPState} {b : Nat} (hinv : SPInv s)
    (hb : getEntry s.boxes b = none) :
    SPInv { s with boxes := (b, ⟨none, none⟩) :: s.boxes } := by
  have hnk : b ∉ s.boxes.map Prod.fst := getEntry_none_not_mem hb
  have hrc : ∀ c : Nat, refCtr { s with boxes := (b, (⟨none, none⟩ : SBox)) :: s.boxes } c =
      refCtr s c := by
    intro c
    simp [refCtr, List.countP_cons]
  have hro : ∀ o : Nat, refObj { s with boxes := (b, (⟨none, none⟩ : SBox)) :: s.boxes } o =
      refObj s o := by
    intro o
    simp [refObj, List.countP_cons]
  refine ⟨?_, ?_, ?_, ?_, hinv.allocObjLt, hinv.allocCtrLt, ?_, ?_,
    hinv.freedObjNodup, hinv.freedCtrNodup, hinv.freedObjSub, hinv.freedCtrSub, ?_, ?_⟩
  · simp only [List.map_cons, List.nodup_cons]
    exact ⟨hnk, hinv.keysNodup⟩
  · intro p hp
    rcases List.mem_cons.mp hp with he | hm
    · subst he
      simp
    · exact hinv.ptrIffCtr p hm
  · intro p hp o hole
    rcases List.mem_cons.mp hp with he | hm
    · subst he
      simp at hole
    · exact hinv.objAlloc p hm o hole
  · intro p hp c hc
    rcases List.mem_cons.mp hp with he | hm
    · subst he
      simp at hc
    · exact hinv.ctrAlloc p hm c hc
  · intro c hpos
    rw [hrc c] at hpos
    have h := hinv.ctrCount c hpos
    refine ⟨h.1, ?_⟩
    rw [hrc c]
    exact h.2
  · intro p hp q hq
    rcases List.mem_cons.mp hp with hep | hmp <;> rcases List.mem_cons.mp hq with heq | hmq
    · subst hep
      subst heq
      rfl
    · subst hep
      have h := hinv.ptrIffCtr q hmq
      constructor
      · intro he
        show (none : Option Nat) = q.2.counter
        rw [(h.mp he.symm)]
      · intro he
        show (none : Option Nat) = q.2.ptr
        rw [(h.mpr he.symm)]
    · subst heq
      have h := hinv.ptrIffCtr p hmp
      constructor
      · intro he
        show (p.2 : SBox).counter = none
        exact h.mp he
      · intro he
        show (p.2 : SBox).ptr = none
        exact h.mpr he
    · exact hinv.objCoherent p hmp q hmq
  · intro o ho
    rw [hro o]
    exact hinv.objLedger o ho
  · intro c hc
    rw [hrc c]
    exact hinv.ctrLedger c hc


theorem spinv_release_null {s : SPState} {b : Nat} {v : SBox} (hinv : SPInv s)
    (hget : getEntry s.boxes b = some v) :
    SPInv { spReleaseFields s v with boxes := setEntry s.boxes b ⟨none, none⟩ } := by
  have hmem : (b, v) ∈ s.boxes := getEntry_some_mem hget
  obtain ⟨vp, vc⟩ := v
  cases vc with
  | none =>
    have hvp : vp = none := by
      have h := hinv.ptrIffCtr (b, ⟨vp, none⟩) hmem
      exact h.mpr rfl
    subst hvp
    have hset : setEntry s.boxes b ⟨none, none⟩ = s.boxes :=
      setEntry_self_eq s.boxes b ⟨none, none⟩ hinv.keysNodup hmem
    rw [show spReleaseFields s ⟨none, none⟩ = s from rfl, hset]
    exact hinv
  | some c =>
    obtain ⟨o, ho⟩ : ∃ o : Nat, vp = some o := by
      have h := hinv.ptrIffCtr (b, ⟨vp, some c⟩) hmem
      cases hv : vp with
      | none =>
        rw [hv] at h
        exact absurd (h.mp rfl) (by simp)
      | some o => exact ⟨o, rfl⟩
    subst ho
    have hcpos : 0 < refCtr s c := refCtr_pos_of_mem hmem rfl
    have hcc := hinv.ctrCount c hcpos
    have hobjeq : refObj s o = refCtr s c :=
      refObj_eq_refCtr hinv.objCoherent hmem rfl rfl
    have hoalloc : o ∈ s.allocObj := hinv.objAlloc (b, ⟨some o, some c⟩) hmem o rfl
    have hcalloc : c ∈ s.allocCtr := hinv.ctrAlloc (b, ⟨some o, some c⟩) hmem c rfl
    have honf : o ∉ s.freedObj := by
      intro hmemf
      have h := (hinv.objLedger o hoalloc).mp hmemf
      omega
    have hcnf : c ∉ s.freedCtr := hcc.1
    have hrc : ∀ c2 : Nat, (setEntry s.boxes b ⟨none, none⟩).countP
        (fun p => decide ((p.2 : SBox).counter = some c2)) + (if c = c2 then 1 else 0) =
        refCtr s c2 := by
      intro c2
      have h := countP_setEntry s.boxes b ⟨some o, some c⟩ ⟨none, none⟩
        (fun p => decide ((p.2 : SBox).counter = some c2)) hinv.keysNodup hmem
      simpa using h
    have hro : ∀ o2 : Nat, (setEntry s.boxes b ⟨none, none⟩).countP
        (fun p => decide ((p.2 : SBox).ptr = some o2)) + (if o = o2 then 1 else 0) =
        refObj s o2 := by
      intro o2
      have h := countP_setEntry s.boxes b ⟨some o, some c⟩ ⟨none, none⟩
        (fun p => decide ((p.2 : SBox).ptr = some o2)) hinv.keysNodup hmem
      simpa using h
    have hkeys : ((setEntry s.boxes b (⟨none, none⟩ : SBox)).map Prod.fst).Nodup := by
      rw [keys_setEntry]
      exact hinv.keysNodup
    have hIff : ∀ p ∈ setEntry s.boxes b (⟨none, none⟩ : SBox),
        ((p.2 : SBox).ptr = none ↔ (p.2 : SBox).counter = none) := by
      intro p hp
      rcases setEntry_mem hp with hm | he
      · exact hinv.ptrIffCtr p hm
      · subst he
        simp
    have hOA : ∀ p ∈ setEntry s.boxes b (⟨none, none⟩ : SBox), ∀ o2 : Nat,
        (p.2 : SBox).ptr = some o2 → o2 ∈ s.allocObj := by
      intro p hp o2 h2
      rcases setEntry_mem hp with hm | he
      · exact hinv.objAlloc p hm o2 h2
      · subst he
        simp at h2
    have hCA : ∀ p ∈ setEntry s.boxes b (⟨none, none⟩ : SBox), ∀ c2 : Nat,
        (p.2 : SBox).counter = some c2 → c2 ∈ s.allocCtr := by
      intro p hp c2 h2
      rcases setEntry_mem hp with hm | he
      · exact hinv.ctrAlloc p hm c2 h2
      · subst he
        simp at h2
    have hCO : ∀ p ∈ setEntry s.boxes b (⟨none, none⟩ : SBox),
        ∀ q ∈ setEntry s.boxes b (⟨none, none⟩ : SBox),
        ((p.2 : SBox).ptr = (q.2 : SBox).ptr ↔ (p.2 : SBox).counter = q.2.counter) := by
      intro p hp q hq
      rcases setEntry_mem hp with hmp | hep <;> rcases setEntry_mem hq with hmq | heq
      · exact hinv.objCoherent p hmp q hmq
      · subst heq
        have h := hinv.ptrIffCtr p hmp
        constructor
        · intro he
          show (p.2 : SBox).counter = none
          exact h.mp he
        · intro he
          show (p.2 : SBox).ptr = none
          exact h.mpr he
      · subst hep
        have h := hinv.ptrIffCtr q hmq
        constructor
        · intro he
          show (none : Option Nat) = (q.2 : SBox).counter
          rw [h.mp he.symm]
        · intro he
          show (none : Option Nat) = (q.2 : SBox).ptr
          rw [h.mpr he.symm]
      · subst hep
        subst heq
        rfl
    simp only [spReleaseFields]
    by_cases hz : s.ctrVal c - 1 = 0
    · rw [if_pos hz]
      have hone : refCtr s c = 1 := by omega
      refine ⟨hkeys, hIff, hOA, hCA, hinv.allocObjLt, hinv.allocCtrLt, ?_, hCO,
        ?_, ?_, ?_, ?_, ?_, ?_⟩
      · intro c2 hpos
        have hpos2 : 0 < (setEntry s.boxes b (⟨none, none⟩ : SBox)).countP
            (fun p => decide ((p.2 : SBox).counter = some c2)) := hpos
        have h2 := hrc c2
        have hne : ¬ c = c2 := by
          intro he
          subst he
          rw [if_pos rfl] at h2
          omega
        rw [if_neg hne] at h2
        have hcc2 := hinv.ctrCount c2 (by show 0 < refCtr s c2; omega)
        constructor
        · intro hmf
          have hmf2 : c2 ∈ s.freedCtr ++ [c] := hmf
          rcases List.mem_append.mp hmf2 with hf | hf
          · exact hcc2.1 hf
          · simp only [List.mem_singleton] at hf
            exact hne hf.symm
        · show bumpCtr s.ctrVal c (s.ctrVal c - 1) c2 =
            (setEntry s.boxes b (⟨none, none⟩ : SBox)).countP
              (fun p => decide ((p.2 : SBox).counter = some c2))
          rw [bumpCtr, if_neg (fun e => hne e.symm)]
          have h4 := hcc2.2
          omega
      · show (s.freedObj ++ [o]).Nodup
        exact nodup_append_singleton _ _ hinv.freedObjNodup honf
      · show (s.freedCtr ++ [c]).Nodup
        exact nodup_append_singleton _ _ hinv.freedCtrNodup hcnf
      · intro o2 h2
        have h2b : o2 ∈ s.freedObj ++ [o] := h2
        show o2 ∈ s.allocObj
        rcases List.mem_append.mp h2b with hf | hf
        · exact hinv.freedObjSub o2 hf
        · simp only [List.mem_singleton] at hf
          subst hf
          exact hoalloc
      · intro c2 h2
        have h2b : c2 ∈ s.freedCtr ++ [c] := h2
        show c2 ∈ s.allocCtr
        rcases List.mem_append.mp h2b with hf | hf
        · exact hinv.freedCtrSub c2 hf
        · simp only [List.mem_singleton] at hf
          subst hf
          exact hcalloc
      · intro o2 h2
        have h2b : o2 ∈ s.allocObj := h2
        show o2 ∈ s.freedObj ++ [o] ↔ (setEntry s.boxes b (⟨none, none⟩ : SBox)).countP
            (fun p => decide ((p.2 : SBox).ptr = some o2)) = 0
        have h3 := hro o2
        by_cases heo : o = o2
        · subst heo
          rw [if_pos rfl] at h3
          constructor
          · intro _
            omega
          · intro _
            exact List.mem_append.mpr (Or.inr (List.mem_singleton.mpr rfl))
        · rw [if_neg heo] at h3
          have h4 := hinv.objLedger o2 h2b
          constructor
          · intro hmf
            rcases List.mem_append.mp hmf with hf | hf
            · have h5 := h4.mp hf
              omega
            · simp only [List.mem_singleton] at hf
              exact absurd hf.symm heo
          · intro hcnt
            exact List.mem_append.mpr (Or.inl (h4.mpr (by omega)))
      · intro c2 h2
        have h2b : c2 ∈ s.allocCtr := h2
        show c2 ∈ s.freedCtr ++ [c] ↔ (setEntry s.boxes b (⟨none, none⟩ : SBox)).countP
            (fun p => decide ((p.2 : SBox).counter = some c2)) = 0
        have h3 := hrc c2
        by_cases hec : c = c2
        · subst hec
          rw [if_pos rfl] at h3
          constructor
          · intro _
            omega
          · intro _
            exact List.mem_append.mpr (Or.inr (List.mem_singleton.mpr rfl))
        · rw [if_neg hec] at h3
          have h4 := hinv.ctrLedger c2 h2b
          constructor
          · intro hmf
            rcases List.mem_append.mp hmf with hf | hf
            · have h5 := h4.mp hf
              omega
            · simp only [List.mem_singleton] at hf
              exact absurd hf.symm hec
          · intro hcnt
            exact List.mem_append.mpr (Or.inl (h4.mpr (by omega)))
    · rw [if_neg hz]
      refine ⟨hkeys, hIff, hOA, hCA, hinv.allocObjLt, hinv.allocCtrLt, ?_, hCO,
        hinv.freedObjNodup, hinv.freedCtrNodup, hinv.freedObjSub, hinv.freedCtrSub,
        ?_, ?_⟩
      · intro c2 hpos
        have hpos2 : 0 < (setEntry s.boxes b (⟨none, none⟩ : SBox)).countP
            (fun p => decide ((p.2 : SBox).counter = some c2)) := hpos
        have h2 := hrc c2
        by_cases hec : c = c2
        · subst hec
          rw [if_pos rfl] at h2
          refine ⟨hcnf, ?_⟩
          show bumpCtr s.ctrVal c (s.ctrVal c - 1) c =
            (setEntry s.boxes b (⟨none, none⟩ : SBox)).countP
              (fun p => decide ((p.2 : SBox).counter = some c))
          rw [bumpCtr, if_pos rfl]
          have h4 := hcc.2
          omega
        · rw [if_neg hec] at h2
          have hcc2 := hinv.ctrCount c2 (by show 0 < refCtr s c2; omega)
          refine ⟨hcc2.1, ?_⟩
          show bumpCtr s.ctrVal c (s.ctrVal c - 1) c2 =
            (setEntry s.boxes b (⟨none, none⟩ : SBox)).countP
              (fun p => decide ((p.2 : SBox).counter = some c2))
          rw [bumpCtr, if_neg (fun e => hec e.symm)]
          have h4 := hcc2.2
          omega
      · intro o2 h2
        have h2b : o2 ∈ s.allocObj := h2
        show o2 ∈ s.freedObj ↔ (setEntry s.boxes b (⟨none, none⟩ : SBox)).countP
            (fun p => decide ((p.2 : SBox).ptr = some o2)) = 0
        have h3 := hro o2
        by_cases heo : o = o2
        · subst heo
          rw [if_pos rfl] at h3
          have h4 := hcc.2
          constructor
          · intro hmf
            exact absurd hmf honf
          · intro hcnt
            exfalso
            omega
        · rw [if_neg heo] at h3
          have h4 := hinv.objLedger o2 h2b
          constructor
          · intro hmf
            have h5 := h4.mp hmf
            omega
          · intro hcnt
            exact h4.mpr (by omega)
      · intro c2 h2
        have h2b : c2 ∈ s.allocCtr := h2
        show c2 ∈ s.freedCtr ↔ (setEntry s.boxes b (⟨none, none⟩ : SBox)).countP
            (fun p => decide ((p.2 : SBox).counter = some c2)) = 0
        have h3 := hrc c2
        by_cases hec : c = c2
        · subst hec
          rw [if_pos rfl] at h3
          have h4 := hcc.2
          constructor
          · intro hmf
            exact absurd hmf hcnf
          · intro hcnt
            exfalso
            omega
        · rw [if_neg hec] at h3
          have h4 := hinv.ctrLedger c2 h2b
          constructor
          · intro hmf
            have h5 := h4.mp hmf
            omega
          · intro hcnt
            exact h4.mpr (by omega)

theorem spReleaseFields_boxes (s : SPState) (v : SBox) :
    (spReleaseFields s v).boxes = s.boxes := by
  cases hv : v.counter with
  | none => rw [spReleaseFields, hv]
  | some c =>
    rw [spReleaseFields, hv]
    by_cases hz : s.ctrVal c - 1 = 0
    · simp only [if_pos hz]
    · simp only [if_neg hz]

theorem setEntry_mem_of_ne {β : Type} {l : List (Nat × β)} {k k2 : Nat} {v : β}
    (x : β) (hm : (k, v) ∈ l) (h : k ≠ k2) : (k, v) ∈ setEntry l k2 x := by
  refine List.mem_map.mpr ⟨(k, v), hm, ?_⟩
  simp [h]

theorem mem_keys_of_mem {β : Type} {l : List (Nat × β)} {k : Nat} {v : β}
    (hm : (k, v) ∈ l) : k ∈ l.map Prod.fst :=
  List.mem_map.mpr ⟨(k, v), hm, rfl⟩

theorem spinv_removeNull {s : SPState} {b : Nat} (hinv : SPInv s)
    (hget : getEntry s.boxes b = some ⟨none, none⟩) :
    SPInv { s with boxes := removeEntry s.boxes b } := by
  have hmem : (b, (⟨none, none⟩ : SBox)) ∈ s.boxes := getEntry_some_mem hget
  have hrc : ∀ c2 : Nat, (removeEntry s.boxes b).countP
      (fun p => decide ((p.2 : SBox).counter = some c2)) = refCtr s c2 := by
    intro c2
    have h := countP_removeEntry s.boxes b ⟨none, none⟩
      (fun p => decide ((p.2 : SBox).counter = some c2)) hinv.keysNodup hmem
    simpa using h
  have hro : ∀ o2 : Nat, (removeEntry s.boxes b).countP
      (fun p => decide ((p.2 : SBox).ptr = some o2)) = refObj s o2 := by
    intro o2
    have h := countP_removeEntry s.boxes b ⟨none, none⟩
      (fun p => decide ((p.2 : SBox).ptr = some o2)) hinv.keysNodup hmem
    simpa using h
  refine ⟨keys_removeEntry_nodup _ _ hinv.keysNodup, ?_, ?_, ?_,
    hinv.allocObjLt, hinv.allocCtrLt, ?_, ?_, hinv.freedObjNodup, hinv.freedCtrNodup,
    hinv.freedObjSub, hinv.freedCtrSub, ?_, ?_⟩
  · intro p hp
    exact hinv.ptrIffCtr p (removeEntry_mem hp).1
  · intro p hp o2 h2
    exact hinv.objAlloc p (removeEntry_mem hp).1 o2 h2
  · intro p hp c2 h2
    exact hinv.ctrAlloc p (removeEntry_mem hp).1 c2 h2
  · intro c2 hpos
    have hpos2 : 0 < (removeEntry s.boxes b).countP
        (fun p => decide ((p.2 : SBox).counter = some c2)) := hpos
    rw [hrc c2] at hpos2
    have h := hinv.ctrCount c2 hpos2
    refine ⟨h.1, ?_⟩
    show s.ctrVal c2 = (removeEntry s.boxes b).countP
      (fun p => decide ((p.2 : SBox).counter = some c2))
    rw [hrc c2]
    exact h.2
  · intro p hp q hq
    exact hinv.objCoherent p (removeEntry_mem hp).1 q (removeEntry_mem hq).1
  · intro o2 h2
    have h2b : o2 ∈ s.allocObj := h2
    show o2 ∈ s.freedObj ↔ (removeEntry s.boxes b).countP
      (fun p => decide ((p.2 : SBox).ptr = some o2)) = 0
    rw [hro o2]
    exact hinv.objLedger o2 h2b
  · intro c2 h2
    have h2b : c2 ∈ s.allocCtr := h2
    show c2 ∈ s.freedCtr ↔ (removeEntry s.boxes b).countP
      (fun p => decide ((p.2 : SBox).counter = some c2)) = 0
    rw [hrc c2]
    exact hinv.ctrLedger c2 h2b

theorem spinv_freshOnNull {s : SPState} {b : Nat} (hinv : SPInv s)
    (hget : getEntry s.boxes b = some ⟨none, none⟩) :
    SPInv { s with
      boxes := setEntry s.boxes b ⟨some s.next, some (s.next + 1)⟩,
      ctrVal := bumpCtr s.ctrVal (s.next + 1) 1,
      allocObj := s.allocObj ++ [s.next],
      allocCtr := s.allocCtr ++ [s.next + 1],
      next := s.next + 2 } := by
  have hmem : (b, (⟨none, none⟩ : SBox)) ∈ s.boxes := getEntry_some_mem hget
  have hfo : s.next ∉ s.allocObj := fun h => by
    have := hinv.allocObjLt _ h
    omega
  have hfc : s.next + 1 ∉ s.allocCtr := fun h => by
    have := hinv.allocCtrLt _ h
    omega
  have hffo : s.next ∉ s.freedObj := fun h => hfo (hinv.freedObjSub _ h)
  have hffc : s.next + 1 ∉ s.freedCtr := fun h => hfc (hinv.freedCtrSub _ h)
  have hfreshc : refCtr s (s.next + 1) = 0 := by
    by_contra h
    obtain ⟨q, hq, hqc⟩ := List.countP_pos_iff.mp (Nat.pos_of_ne_zero h)
    simp only [decide_eq_true_eq] at hqc
    exact hfc (hinv.ctrAlloc q hq _ hqc)
  have hfresho : refObj s s.next = 0 := by
    by_contra h
    obtain ⟨q, hq, hqc⟩ := List.countP_pos_iff.mp (Nat.pos_of_ne_zero h)
    simp only [decide_eq_true_eq] at hqc
    exact hfo (hinv.objAlloc q hq _ hqc)
  have hrc : ∀ c2 : Nat, (setEntry s.boxes b ⟨some s.next, some (s.next + 1)⟩).countP
      (fun p => decide ((p.2 : SBox).counter = some c2)) =
      refCtr s c2 + (if s.next + 1 = c2 then 1 else 0) := by
    intro c2
    have h := countP_setEntry s.boxes b ⟨none, none⟩ ⟨some s.next, some (s.next + 1)⟩
      (fun p => decide ((p.2 : SBox).counter = some c2)) hinv.keysNodup hmem
    simp only [decide_eq_true_eq] at h
    simpa using h
  have hro : ∀ o2 : Nat, (setEntry s.boxes b ⟨some s.next, some (s.next + 1)⟩).countP
      (fun p => decide ((p.2 : SBox).ptr = some o2)) =
      refObj s o2 + (if s.next = o2 then 1 else 0) := by
    intro o2
    have h := countP_setEntry s.boxes b ⟨none, none⟩ ⟨some s.next, some (s.next + 1)⟩
      (fun p => decide ((p.2 : SBox).ptr = some o2)) hinv.keysNodup hmem
    simp only [decide_eq_true_eq] at h
    simpa using h
  refine ⟨?_, ?_, ?_, ?_, ?_, ?_, ?_, ?_, hinv.freedObjNodup, hinv.freedCtrNodup,
    ?_, ?_, ?_, ?_⟩
  · show ((setEntry s.boxes b ⟨some s.next, some (s.next + 1)⟩).map Prod.fst).Nodup
    rw [keys_setEntry]
    exact hinv.keysNodup
  · intro p hp
    rcases setEntry_mem hp with hm | he
    · exact hinv.ptrIffCtr p hm
    · subst he
      simp
  · intro p hp o2 h2
    show o2 ∈ s.allocObj ++ [s.next]
    rcases setEntry_mem hp with hm | he
    · exact List.mem_append.mpr (Or.inl (hinv.objAlloc p hm o2 h2))
    · subst he
      simp only at h2
      injection h2 with h3
      subst h3
      exact List.mem_append.mpr (Or.inr (List.mem_singleton.mpr rfl))
  · intro p hp c2 h2
    show c2 ∈ s.allocCtr ++ [s.next + 1]
    rcases setEntry_mem hp with hm | he
    · exact List.mem_append.mpr (Or.inl (hinv.ctrAlloc p hm c2 h2))
    · subst he
      simp only at h2
      injection h2 with h3
      subst h3
      exact List.mem_append.mpr (Or.inr (List.mem_singleton.mpr rfl))
  · intro o2 h2
    show o2 < s.next + 2
    have h2b : o2 ∈ s.allocObj ++ [s.next] := h2
    rcases List.mem_append.mp h2b with hf | hf
    · have := hinv.allocObjLt _ hf
      omega
    · simp only [List.mem_singleton] at hf
      omega
  · intro c2 h2
    show c2 < s.next + 2
    have h2b : c2 ∈ s.allocCtr ++ [s.next + 1] := h2
    rcases List.mem_append.mp h2b with hf | hf
    · have := hinv.allocCtrLt _ hf
      omega
    · simp only [List.mem_singleton] at hf
      omega
  · intro c2 hpos
    have hpos2 : 0 < (setEntry s.boxes b ⟨some s.next, some (s.next + 1)⟩).countP
        (fun p => decide ((p.2 : SBox).counter = some c2)) := hpos
    rw [hrc c2] at hpos2
    by_cases hec : s.next + 1 = c2
    · subst hec
      constructor
      · exact hffc
      · show bumpCtr s.ctrVal (s.next + 1) 1 (s.next + 1) =
          (setEntry s.boxes b ⟨some s.next, some (s.next + 1)⟩).countP
            (fun p => decide ((p.2 : SBox).counter = some (s.next + 1)))
        rw [bumpCtr, if_pos rfl, hrc (s.next + 1), if_pos rfl]
        omega
    · rw [if_neg hec] at hpos2
      have hcc2 := hinv.ctrCount c2 (by omega)
      refine ⟨hcc2.1, ?_⟩
      show bumpCtr s.ctrVal (s.next + 1) 1 c2 =
        (setEntry s.boxes b ⟨some s.next, some (s.next + 1)⟩).countP
          (fun p => decide ((p.2 : SBox).counter = some c2))
      rw [bumpCtr, if_neg (fun e => hec e.symm), hrc c2, if_neg hec]
      have h4 := hcc2.2
      omega
  · intro p hp q hq
    rcases setEntry_mem hp with hmp | hep <;> rcases setEntry_mem hq with hmq | heq
    · exact hinv.objCoherent p hmp q hmq
    · subst heq
      constructor
      · intro he
        exfalso
        have : (p.2 : SBox).ptr = some s.next := by
          rw [he]
        exact hfo (hinv.objAlloc p hmp _ this)
      · intro he
        exfalso
        have : (p.2 : SBox).counter = some (s.next + 1) := by
          rw [he]
        exact hfc (hinv.ctrAlloc p hmp _ this)
    · subst hep
      constructor
      · intro he
        exfalso
        have : (q.2 : SBox).ptr = some s.next := by
          rw [← he]
        exact hfo (hinv.objAlloc q hmq _ this)
      · intro he
        exfalso
        have : (q.2 : SBox).counter = some (s.next + 1) := by
          rw [← he]
        exact hfc (hinv.ctrAlloc q hmq _ this)
    · subst hep
      subst heq
      exact ⟨fun _ => rfl, fun _ => rfl⟩
  · intro o2 h2
    show o2 ∈ s.allocObj ++ [s.next]
    exact List.mem_append.mpr (Or.inl (hinv.freedObjSub _ h2))
  · intro c2 h2
    show c2 ∈ s.allocCtr ++ [s.next + 1]
    exact List.mem_append.mpr (Or.inl (hinv.freedCtrSub _ h2))
  · intro o2 h2
    have h2b : o2 ∈ s.allocObj ++ [s.next] := h2
    show o2 ∈ s.freedObj ↔ (setEntry s.boxes b ⟨some s.next, some (s.next + 1)⟩).countP
      (fun p => decide ((p.2 : SBox).ptr = some o2)) = 0
    rw [hro o2]
    rcases List.mem_append.mp h2b with hf | hf
    · have hne : ¬ s.next = o2 := fun e => hfo (e ▸ hf)
      rw [if_neg hne]
      have h4 := hinv.objLedger o2 hf
      constructor
      · intro hmf
        have := h4.mp hmf
        omega
      · intro hcnt
        exact h4.mpr (by omega)
    · simp only [List.mem_singleton] at hf
      subst hf
      rw [if_pos rfl]
      constructor
      · intro hmf
        exact absurd hmf hffo
      · intro hcnt
        exfalso
        omega
  · intro c2 h2
    have h2b : c2 ∈ s.allocCtr ++ [s.next + 1] := h2
    show c2 ∈ s.freedCtr ↔ (setEntry s.boxes b ⟨some s.next, some (s.next + 1)⟩).countP
      (fun p => decide ((p.2 : SBox).counter = some c2)) = 0
    rw [hrc c2]
    rcases List.mem_append.mp h2b with hf | hf
    · have hne : ¬ s.next + 1 = c2 := fun e => hfc (e ▸ hf)
      rw [if_neg hne]
      have h4 := hinv.ctrLedger c2 hf
      constructor
      · intro hmf
        have := h4.mp hmf
        omega
      · intro hcnt
        exact h4.mpr (by omega)
    · simp only [List.mem_singleton] at hf
      subst hf
      rw [if_pos rfl]
      constructor
      · intro hmf
        exact absurd hmf hffc
      · intro hcnt
        exfalso
        omega

theorem spinv_copyOnNull_nonectr {s : SPState} {dst src : Nat} {vs : SBox}
    (hinv : SPInv s) (hdst : getEntry s.boxes dst = some ⟨none, none⟩)
    (hsrc : getEntry s.boxes src = some vs) (hvc : vs.counter = none) :
    SPInv { s with boxes := setEntry s.boxes dst vs } := by
  have hmemd : (dst, (⟨none, none⟩ : SBox)) ∈ s.boxes := getEntry_some_mem hdst
  have hmems : (src, vs) ∈ s.boxes := getEntry_some_mem hsrc
  have hvp : vs.ptr = none := (hinv.ptrIffCtr (src, vs) hmems).mpr hvc
  have hv : vs = ⟨none, none⟩ := by
    obtain ⟨vsp, vsc⟩ := vs
    simp only at hvp hvc
    rw [hvp, hvc]
  rw [hv, setEntry_self_eq s.boxes dst ⟨none, none⟩ hinv.keysNodup hmemd]
  exact hinv

theorem spinv_copyOnNull_some {s : SPState} {dst src : Nat} {vs : SBox} {c : Nat}
    (hinv : SPInv s) (hdst : getEntry s.boxes dst = some ⟨none, none⟩)
    (hsrc : getEntry s.boxes src = some vs) (hvc : vs.counter = some c) :
    SPInv { s with
      boxes := setEntry s.boxes dst vs,
      ctrVal := bumpCtr s.ctrVal c (s.ctrVal c + 1) } := by
  have hmemd : (dst, (⟨none, none⟩ : SBox)) ∈ s.boxes := getEntry_some_mem hdst
  have hmems : (src, vs) ∈ s.boxes := getEntry_some_mem hsrc
  obtain ⟨vsp, vsc⟩ := vs
  simp only at hvc
  subst hvc
  obtain ⟨o, ho⟩ : ∃ o : Nat, vsp = some o := by
    cases hv : vsp with
    | none =>
      have h := (hinv.ptrIffCtr (src, ⟨vsp, some c⟩) hmems).mp
      rw [hv] at h
      exact absurd (h rfl) (by simp)
    | some o => exact ⟨o, rfl⟩
  subst ho
  show SPInv { s with
    boxes := setEntry s.boxes dst ⟨some o, some c⟩,
    ctrVal := bumpCtr s.ctrVal c (s.ctrVal c + 1) }
  have hcpos : 0 < refCtr s c := refCtr_pos_of_mem hmems rfl
  have hopos : 0 < refObj s o := by
    refine List.countP_pos_iff.mpr ⟨(src, ⟨some o, some c⟩), hmems, ?_⟩
    simp
  have hcc := hinv.ctrCount c hcpos
  have hoalloc : o ∈ s.allocObj := hinv.objAlloc (src, ⟨some o, some c⟩) hmems o rfl
  have hcalloc : c ∈ s.allocCtr := hinv.ctrAlloc (src, ⟨some o, some c⟩) hmems c rfl
  have honf : o ∉ s.freedObj := by
    intro hmf
    have := (hinv.objLedger o hoalloc).mp hmf
    omega
  have hrc : ∀ c2 : Nat, (setEntry s.boxes dst ⟨some o, some c⟩).countP
      (fun p => decide ((p.2 : SBox).counter = some c2)) =
      refCtr s c2 + (if c = c2 then 1 else 0) := by
    intro c2
    have h := countP_setEntry s.boxes dst ⟨none, none⟩ ⟨some o, some c⟩
      (fun p => decide ((p.2 : SBox).counter = some c2)) hinv.keysNodup hmemd
    simpa using h
  have hro : ∀ o2 : Nat, (setEntry s.boxes dst ⟨some o, some c⟩).countP
      (fun p => decide ((p.2 : SBox).ptr = some o2)) =
      refObj s o2 + (if o = o2 then 1 else 0) := by
    intro o2
    have h := countP_setEntry s.boxes dst ⟨none, none⟩ ⟨some o, some c⟩
      (fun p => decide ((p.2 : SBox).ptr = some o2)) hinv.keysNodup hmemd
    simpa using h
  refine ⟨?_, ?_, ?_, ?_, hinv.allocObjLt, hinv.allocCtrLt, ?_, ?_,
    hinv.freedObjNodup, hinv.freedCtrNodup, hinv.freedObjSub, hinv.freedCtrSub,
    ?_, ?_⟩
  · show ((setEntry s.boxes dst ⟨some o, some c⟩).map Prod.fst).Nodup
    rw [keys_setEntry]
    exact hinv.keysNodup
  · intro p hp
    rcases setEntry_mem hp with hm | he
    · exact hinv.ptrIffCtr p hm
    · subst he
      exact hinv.ptrIffCtr (src, ⟨some o, some c⟩) hmems
  · intro p hp o2 h2
    show o2 ∈ s.allocObj
    rcases setEntry_mem hp with hm | he
    · exact hinv.objAlloc p hm o2 h2
    · subst he
      exact hinv.objAlloc (src, ⟨some o, some c⟩) hmems o2 h2
  · intro p hp c2 h2
    show c2 ∈ s.allocCtr
    rcases setEntry_mem hp with hm | he
    · exact hinv.ctrAlloc p hm c2 h2
    · subst he
      exact hinv.ctrAlloc (src, ⟨some o, some c⟩) hmems c2 h2
  · intro c2 hpos
    have hpos2 : 0 < (setEntry s.boxes dst ⟨some o, some c⟩).countP
        (fun p => decide ((p.2 : SBox).counter = some c2)) := hpos
    rw [hrc c2] at hpos2
    by_cases hec : c = c2
    · subst hec
      refine ⟨hcc.1, ?_⟩
      show bumpCtr s.ctrVal c (s.ctrVal c + 1) c =
        (setEntry s.boxes dst ⟨some o, some c⟩).countP
          (fun p => decide ((p.2 : SBox).counter = some c))
      rw [bumpCtr, if_pos rfl, hrc c, if_pos rfl]
      have h4 := hcc.2
      omega
    · rw [if_neg hec] at hpos2
      have hcc2 := hinv.ctrCount c2 (by omega)
      refine ⟨hcc2.1, ?_⟩
      show bumpCtr s.ctrVal c (s.ctrVal c + 1) c2 =
        (setEntry s.boxes dst ⟨some o, some c⟩).countP
          (fun p => decide ((p.2 : SBox).counter = some c2))
      rw [bumpCtr, if_neg (fun e => hec e.symm), hrc c2, if_neg hec]
      have h4 := hcc2.2
      omega
  · intro p hp q hq
    rcases setEntry_mem hp with hmp | hep <;> rcases setEntry_mem hq with hmq | heq
    · exact hinv.objCoherent p hmp q hmq
    · subst heq
      exact hinv.objCoherent p hmp (src, ⟨some o, some c⟩) hmems
    · subst hep
      exact hinv.objCoherent (src, ⟨some o, some c⟩) hmems q hmq
    · subst hep
      subst heq
      exact ⟨fun _ => rfl, fun _ => rfl⟩
  · intro o2 h2
    have h2b : o2 ∈ s.allocObj := h2
    show o2 ∈ s.freedObj ↔ (setEntry s.boxes dst ⟨some o, some c⟩).countP
      (fun p => decide ((p.2 : SBox).ptr = some o2)) = 0
    rw [hro o2]
    by_cases heo : o = o2
    · subst heo
      rw [if_pos rfl]
      constructor
      · intro hmf
        exact absurd hmf honf
      · intro hcnt
        exfalso
        omega
    · rw [if_neg heo]
      have h4 := hinv.objLedger o2 h2b
      constructor
      · intro hmf
        have := h4.mp hmf
        omega
      · intro hcnt
        exact h4.mpr (by omega)
  · intro c2 h2
    have h2b : c2 ∈ s.allocCtr := h2
    show c2 ∈ s.freedCtr ↔ (setEntry s.boxes dst ⟨some o, some c⟩).countP
      (fun p => decide ((p.2 : SBox).counter = some c2)) = 0
    rw [hrc c2]
    by_cases hec : c = c2
    · subst hec
      rw [if_pos rfl]
      constructor
      · intro hmf
        exact absurd hmf hcc.1
      · intro hcnt
        exfalso
        omega
    · rw [if_neg hec]
      have h4 := hinv.ctrLedger c2 h2b
      constructor
      · intro hmf
        have := h4.mp hmf
        omega
      · intro hcnt
        exact h4.mpr (by omega)

theorem spinv_moveOnNull {s : SPState} {dst src : Nat} {vs : SBox} (hinv : SPInv s)
    (hdst : getEntry s.boxes dst = some ⟨none, none⟩)
    (hsrc : getEntry s.boxes src = some vs) (hne : dst ≠ src) :
    SPInv { s with boxes := setEntry (setEntry s.boxes dst vs) src ⟨none, none⟩ } := by
  have hmemd : (dst, (⟨none, none⟩ : SBox)) ∈ s.boxes := getEntry_some_mem hdst
  have hmems : (src, vs) ∈ s.boxes := getEntry_some_mem hsrc
  have hk1 : ((setEntry s.boxes dst vs).map Prod.fst).Nodup := by
    rw [keys_setEntry]
    exact hinv.keysNodup
  have hmems1 : (src, vs) ∈ setEntry s.boxes dst vs :=
    setEntry_mem_of_ne vs hmems (fun e => hne e.symm)
  have hcnt : ∀ p : Nat × SBox → Bool,
      (setEntry (setEntry s.boxes dst vs) src (⟨none, none⟩ : SBox)).countP p +
        (if p (dst, ⟨none, none⟩) then 1 else 0) + (if p (src, vs) then 1 else 0) =
      s.boxes.countP p + (if p (dst, vs) then 1 else 0) +
        (if p (src, ⟨none, none⟩) then 1 else 0) := by
    intro p
    have h1 := countP_setEntry s.boxes dst ⟨none, none⟩ vs p hinv.keysNodup hmemd
    have h2 := countP_setEntry (setEntry s.boxes dst vs) src vs ⟨none, none⟩ p hk1 hmems1
    omega
  have hrc : ∀ c2 : Nat,
      (setEntry (setEntry s.boxes dst vs) src (⟨none, none⟩ : SBox)).countP
        (fun p => decide ((p.2 : SBox).counter = some c2)) = refCtr s c2 := by
    intro c2
    have h := hcnt (fun p => decide ((p.2 : SBox).counter = some c2))
    simp only [decide_eq_true_eq] at h
    simp only [refCtr]
    omega
  have hro : ∀ o2 : Nat,
      (setEntry (setEntry s.boxes dst vs) src (⟨none, none⟩ : SBox)).countP
        (fun p => decide ((p.2 : SBox).ptr = some o2)) = refObj s o2 := by
    intro o2
    have h := hcnt (fun p => decide ((p.2 : SBox).ptr = some o2))
    simp only [decide_eq_true_eq] at h
    simp only [refObj]
    omega
  have hrep : ∀ p ∈ setEntry (setEntry s.boxes dst vs) src (⟨none, none⟩ : SBox),
      (p.2 : SBox) = ⟨none, none⟩ ∨ ∃ q ∈ s.boxes, (p.2 : SBox) = (q.2 : SBox) := by
    intro p hp
    rcases setEntry_mem hp with hm | he
    · rcases setEntry_mem hm with hm2 | he2
      · exact Or.inr ⟨p, hm2, rfl⟩
      · right
        refine ⟨(src, vs), hmems, ?_⟩
        rw [he2]
    · left
      rw [he]
  refine ⟨?_, ?_, ?_, ?_, hinv.allocObjLt, hinv.allocCtrLt, ?_, ?_,
    hinv.freedObjNodup, hinv.freedCtrNodup, hinv.freedObjSub, hinv.freedCtrSub,
    ?_, ?_⟩
  · show ((setEntry (setEntry s.boxes dst vs) src (⟨none, none⟩ : SBox)).map
      Prod.fst).Nodup
    rw [keys_setEntry, keys_setEntry]
    exact hinv.keysNodup
  · intro p hp
    rcases hrep p hp with he | ⟨q, hq, he⟩
    · rw [he]
    · rw [he]
      exact hinv.ptrIffCtr q hq
  · intro p hp o2 h2
    show o2 ∈ s.allocObj
    rcases hrep p hp with he | ⟨q, hq, he⟩
    · rw [he] at h2
      simp at h2
    · rw [he] at h2
      exact hinv.objAlloc q hq o2 h2
  · intro p hp c2 h2
    show c2 ∈ s.allocCtr
    rcases hrep p hp with he | ⟨q, hq, he⟩
    · rw [he] at h2
      simp at h2
    · rw [he] at h2
      exact hinv.ctrAlloc q hq c2 h2
  · intro c2 hpos
    have hpos2 : 0 < (setEntry (setEntry s.boxes dst vs) src (⟨none, none⟩ : SBox)).countP
        (fun p => decide ((p.2 : SBox).counter = some c2)) := hpos
    rw [hrc c2] at hpos2
    have h := hinv.ctrCount c2 hpos2
    refine ⟨h.1, ?_⟩
    show s.ctrVal c2 = (setEntry (setEntry s.boxes dst vs) src (⟨none, none⟩ : SBox)).countP
      (fun p => decide ((p.2 : SBox).counter = some c2))
    rw [hrc c2]
    exact h.2
  · intro p hp q hq
    rcases hrep p hp with hep | ⟨p2, hp2, hep⟩ <;> rcases hrep q hq with heq | ⟨q2, hq2, heq⟩
    · rw [hep, heq]
    · rw [hep, heq]
      have h := hinv.ptrIffCtr q2 hq2
      constructor
      · intro he
        show (none : Option Nat) = (q2.2 : SBox).counter
        rw [h.mp he.symm]
      · intro he
        show (none : Option Nat) = (q2.2 : SBox).ptr
        rw [h.mpr he.symm]
    · rw [hep, heq]
      have h := hinv.ptrIffCtr p2 hp2
      constructor
      · intro he
        show (p2.2 : SBox).counter = none
        exact h.mp he
      · intro he
        show (p2.2 : SBox).ptr = none
        exact h.mpr he
    · rw [hep, heq]
      exact hinv.objCoherent p2 hp2 q2 hq2
  · intro o2 h2
    have h2b : o2 ∈ s.allocObj := h2
    show o2 ∈ s.freedObj ↔ (setEntry (setEntry s.boxes dst vs) src
      (⟨none, none⟩ : SBox)).countP (fun p => decide ((p.2 : SBox).ptr = some o2)) = 0
    rw [hro o2]
    exact hinv.objLedger o2 h2b
  · intro c2 h2
    have h2b : c2 ∈ s.allocCtr := h2
    show c2 ∈ s.freedCtr ↔ (setEntry (setEntry s.boxes dst vs) src
      (⟨none, none⟩ : SBox)).countP (fun p => decide ((p.2 : SBox).counter = some c2)) = 0
    rw [hrc c2]
    exact hinv.ctrLedger c2 h2b

theorem getEntry_none_of_not_isSome {β : Type} {l : List (Nat × β)} {k : Nat}
    (h : ¬ (getEntry l k).isSome) : getEntry l k = none := by
  cases he : getEntry l k with
  | none => rfl
  | some v =>
    rw [he] at h
    simp at h

theorem spinv_create {s : SPState} (b : Nat) (hinv : SPInv s) :
    SPInv (spStep (SPOp.create b) s) := by
  simp only [spStep]
  by_cases hb : (getEntry s.boxes b).isSome
  · rw [if_pos hb]
    exact hinv
  · rw [if_neg hb]
    have hbn : getEntry s.boxes b = none := getEntry_none_of_not_isSome hb
    have h1 := spinv_consNull hinv hbn
    have hget : getEntry ((b, (⟨none, none⟩ : SBox)) :: s.boxes) b =
        some ⟨none, none⟩ := getEntry_cons_self _ _ _
    have h2 := spinv_freshOnNull h1 hget
    simp only at h2
    have hboxes : setEntry ((b, (⟨none, none⟩ : SBox)) :: s.boxes) b
        ⟨some s.next, some (s.next + 1)⟩ =
        (b, (⟨some s.next, some (s.next + 1)⟩ : SBox)) :: s.boxes := by
      rw [setEntry_cons_eq, setEntry_of_not_mem _ _ _ (getEntry_none_not_mem hbn)]
    rw [hboxes] at h2
    exact h2

theorem spinv_createNull {s : SPState} (b : Nat) (hinv : SPInv s) :
    SPInv (spStep (SPOp.createNull b) s) := by
  simp only [spStep]
  by_cases hb : (getEntry s.boxes b).isSome
  · rw [if_pos hb]
    exact hinv
  · rw [if_neg hb]
    exact spinv_consNull hinv (getEntry_none_of_not_isSome hb)

theorem spinv_copyCtor {s : SPState} (dst src : Nat) (hinv : SPInv s) :
    SPInv (spStep (SPOp.copyCtor dst src) s) := by
  simp only [spStep]
  cases hsrc : getEntry s.boxes src with
  | none => exact hinv
  | some v =>
    cases hdn : getEntry s.boxes dst with
    | some w => exact hinv
    | none =>
      have hne : dst ≠ src := by
        intro e
        rw [e, hsrc] at hdn
        cases hdn
      have h1 := spinv_consNull hinv hdn
      have hgetd : getEntry ((dst, (⟨none, none⟩ : SBox)) :: s.boxes) dst =
          some ⟨none, none⟩ := getEntry_cons_self _ _ _
      have hgets : getEntry ((dst, (⟨none, none⟩ : SBox)) :: s.boxes) src = some v := by
        rw [getEntry_cons_ne _ _ _ _ hne, hsrc]
      have hboxes : setEntry ((dst, (⟨none, none⟩ : SBox)) :: s.boxes) dst v =
          (dst, v) :: s.boxes := by
        rw [setEntry_cons_eq, setEntry_of_not_mem _ _ _ (getEntry_none_not_mem hdn)]
      obtain ⟨vp2, vc2⟩ := v
      cases vc2 with
      | none =>
        have h2 := spinv_copyOnNull_nonectr h1 hgetd hgets rfl
        simp only at h2
        rw [hboxes] at h2
        exact h2
      | some c =>
        have h2 := spinv_copyOnNull_some h1 hgetd hgets rfl
        simp only at h2
        rw [hboxes] at h2
        exact h2

theorem spinv_moveCtor {s : SPState} (dst src : Nat) (hinv : SPInv s) :
    SPInv (spStep (SPOp.moveCtor dst src) s) := by
  simp only [spStep]
  cases hsrc : getEntry s.boxes src with
  | none => exact hinv
  | some v =>
    cases hdn : getEntry s.boxes dst with
    | some w => exact hinv
    | none =>
      have hne : dst ≠ src := by
        intro e
        rw [e, hsrc] at hdn
        cases hdn
      have h1 := spinv_consNull hinv hdn
      have hgetd : getEntry ((dst, (⟨none, none⟩ : SBox)) :: s.boxes) dst =
          some ⟨none, none⟩ := getEntry_cons_self _ _ _
      have hgets : getEntry ((dst, (⟨none, none⟩ : SBox)) :: s.boxes) src = some v := by
        rw [getEntry_cons_ne _ _ _ _ hne, hsrc]
      have h2 := spinv_moveOnNull h1 hgetd hgets hne
      simp only at h2
      have hboxes : setEntry ((dst, (⟨none, none⟩ : SBox)) :: s.boxes) dst v =
          (dst, v) :: s.boxes := by
        rw [setEntry_cons_eq, setEntry_of_not_mem _ _ _ (getEntry_none_not_mem hdn)]
      rw [hboxes, setEntry_cons_diff _ _ _ _ _ hne] at h2
      exact h2

theorem spinv_copyAssign {s : SPState} (dst src : Nat) (hinv : SPInv s) :
    SPInv (spStep (SPOp.copyAssign dst src) s) := by
  simp only [spStep]
  by_cases hds : dst = src
  · rw [if_pos hds]
    exact hinv
  · rw [if_neg hds]
    cases hd : getEntry s.boxes dst with
    | none =>
      cases hs : getEntry s.boxes src with
      | none => exact hinv
      | some vs => exact hinv
    | some vd =>
      cases hs : getEntry s.boxes src with
      | none => exact hinv
      | some vs =>
        have hmemd : (dst, vd) ∈ s.boxes := getEntry_some_mem hd
        have hdk : dst ∈ s.boxes.map Prod.fst := mem_keys_of_mem hmemd
        have h1 := spinv_release_null hinv hd
        have hgetd : getEntry (setEntry s.boxes dst (⟨none, none⟩ : SBox)) dst =
            some ⟨none, none⟩ := getEntry_setEntry_self _ _ _ hdk
        have hgets : getEntry (setEntry s.boxes dst (⟨none, none⟩ : SBox)) src =
            some vs := by
          rw [getEntry_setEntry_ne _ _ _ _ hds, hs]
        obtain ⟨vsp, vsc⟩ := vs
        cases vsc with
        | none =>
          have h2 := spinv_copyOnNull_nonectr h1 hgetd hgets rfl
          simp only at h2
          rw [setEntry_setEntry] at h2
          rw [show s.boxes = (spReleaseFields s vd).boxes from
            (spReleaseFields_boxes s vd).symm] at h2
          exact h2
        | some c =>
          have h2 := spinv_copyOnNull_some h1 hgetd hgets rfl
          simp only at h2
          rw [setEntry_setEntry] at h2
          rw [show s.boxes = (spReleaseFields s vd).boxes from
            (spReleaseFields_boxes s vd).symm] at h2
          exact h2

theorem spinv_moveAssign {s : SPState} (dst src : Nat) (hinv : SPInv s) :
    SPInv (spStep (SPOp.moveAssign dst src) s) := by
  simp only [spStep]
  by_cases hds : dst = src
  · rw [if_pos hds]
    exact hinv
  · rw [if_neg hds]
    cases hd : getEntry s.boxes dst with
    | none =>
      cases hs : getEntry s.boxes src with
      | none => exact hinv
      | some vs => exact hinv
    | some vd =>
      cases hs : getEntry s.boxes src with
      | none => exact hinv
      | some vs =>
        have hmemd : (dst, vd) ∈ s.boxes := getEntry_some_mem hd
        have hdk : dst ∈ s.boxes.map Prod.fst := mem_keys_of_mem hmemd
        have h1 := spinv_release_null hinv hd
        have hgetd : getEntry (setEntry s.boxes dst (⟨none, none⟩ : SBox)) dst =
            some ⟨none, none⟩ := getEntry_setEntry_self _ _ _ hdk
        have hgets : getEntry (setEntry s.boxes dst (⟨none, none⟩ : SBox)) src =
            some vs := by
          rw [getEntry_setEntry_ne _ _ _ _ hds, hs]
        have h2 := spinv_moveOnNull h1 hgetd hgets hds
        simp only at h2
        rw [setEntry_setEntry] at h2
        rw [show s.boxes = (spReleaseFields s vd).boxes from
          (spReleaseFields_boxes s vd).symm] at h2
        exact h2

theorem spinv_resetNull {s : SPState} (b : Nat) (hinv : SPInv s) :
    SPInv (spStep (SPOp.resetNull b) s) := by
  simp only [spStep]
  cases hb : getEntry s.boxes b with
  | none => exact hinv
  | some v =>
    obtain ⟨vp, vc⟩ := v
    cases vp with
    | none => exact hinv
    | some o =>
      have h1 := spinv_release_null hinv hb
      rw [show s.boxes = (spReleaseFields s ⟨some o, vc⟩).boxes from
        (spReleaseFields_boxes s ⟨some o, vc⟩).symm] at h1
      exact h1

theorem spinv_resetNew {s : SPState} (b : Nat) (hinv : SPInv s) :
    SPInv (spStep (SPOp.resetNew b) s) := by
  simp only [spStep]
  cases hb : getEntry s.boxes b with
  | none => exact hinv
  | some v =>
    have hmemb : (b, v) ∈ s.boxes := getEntry_some_mem hb
    have hbk : b ∈ s.boxes.map Prod.fst := mem_keys_of_mem hmemb
    have h1 := spinv_release_null hinv hb
    have hgetb : getEntry (setEntry s.boxes b (⟨none, none⟩ : SBox)) b =
        some ⟨none, none⟩ := getEntry_setEntry_self _ _ _ hbk
    have h2 := spinv_freshOnNull h1 hgetb
    simp only at h2
    rw [setEntry_setEntry] at h2
    rw [show s.boxes = (spReleaseFields s v).boxes from
      (spReleaseFields_boxes s v).symm] at h2
    exact h2

theorem spinv_destroy {s : SPState} (b : Nat) (hinv : SPInv s) :
    SPInv (spStep (SPOp.destroy b) s) := by
  simp only [spStep]
  cases hb : getEntry s.boxes b with
  | none => exact hinv
  | some v =>
    have hmemb : (b, v) ∈ s.boxes := getEntry_some_mem hb
    have hbk : b ∈ s.boxes.map Prod.fst := mem_keys_of_mem hmemb
    have h1 := spinv_release_null hinv hb
    have hgetb : getEntry (setEntry s.boxes b (⟨none, none⟩ : SBox)) b =
        some ⟨none, none⟩ := getEntry_setEntry_self _ _ _ hbk
    have h2 := spinv_removeNull h1 hgetb
    simp only at h2
    rw [removeEntry_setEntry] at h2
    rw [show s.boxes = (spReleaseFields s v).boxes from
      (spReleaseFields_boxes s v).symm] at h2
    exact h2

theorem spinv_step {s : SPState} (op : SPOp) (hinv : SPInv s) : SPInv (spStep op s) := by
  cases op with
  | create b => exact spinv_create b hinv
  | createNull b => exact spinv_createNull b hinv
  | copyCtor dst src => exact spinv_copyCtor dst src hinv
  | moveCtor dst src => exact spinv_moveCtor dst src hinv
  | copyAssign dst src => exact spinv_copyAssign dst src hinv
  | moveAssign dst src => exact spinv_moveAssign dst src hinv
  | resetNull b => exact spinv_resetNull b hinv
  | resetNew b => exact spinv_resetNew b hinv
  | destroy b => exact spinv_destroy b hinv

theorem spinv_init : SPInv SPState.init := by
  refine ⟨?_, ?_, ?_, ?_, ?_, ?_, ?_, ?_, ?_, ?_, ?_, ?_, ?_, ?_⟩
  · simp [SPState.init]
  · intro p hp
    cases hp
  · intro p hp
    cases hp
  · intro p hp
    cases hp
  · intro o ho
    cases ho
  · intro c hc
    cases hc
  · intro c hc
    simp [refCtr, SPState.init] at hc
  · intro p hp
    cases hp
  · simp [SPState.init]
  · simp [SPState.init]
  · intro o ho
    cases ho
  · intro c hc
    cases hc
  · intro o ho
    cases ho
  · intro c hc
    cases hc

theorem spinv_foldl (ops : List SPOp) : ∀ s : SPState, SPInv s →
    SPInv (ops.foldl (fun s op => spStep op s) s) := by
  induction ops with
  | nil =>
    intro s h
    exact h
  | cons op ops ih =>
    intro s h
    exact ih _ (spinv_step op h)

/--
Claim C2: in the shared_ptr world, after every sequence of single-threaded
construct, copy, move, reset and destroy operations, the full
reference-counting invariant SPInv holds: every counter cell that some live
box references holds exactly the number of live boxes referencing that
(object, counter) pair; nothing is ever freed twice (the freed ledgers have
no duplicates); and an allocated object or counter is on the freed ledger
exactly when no live box references it any more, so the object and its
counter are freed precisely when the last copy is destroyed or reset and
never before.
-/
theorem shared_ptr_refcount_invariant (ops : List SPOp) :
    SPInv (spRun ops) ∧
    (∀ c : Nat, 0 < refCtr (spRun ops) c →
      (spRun ops).ctrVal c = refCtr (spRun ops) c) ∧
    (spRun ops).freedObj.Nodup ∧
    (spRun ops).freedCtr.Nodup ∧
    (∀ o ∈ (spRun ops).allocObj,
      (o ∈ (spRun ops).freedObj ↔ refObj (spRun ops) o = 0)) ∧
    (∀ c ∈ (spRun ops).allocCtr,
      (c ∈ (spRun ops).freedCtr ↔ refCtr (spRun ops) c = 0)) := by
  have h : SPInv (spRun ops) := spinv_foldl ops SPState.init spinv_init
  exact ⟨h, fun c hc => (h.ctrCount c hc).2, h.freedObjNodup, h.freedCtrNodup,
    h.objLedger, h.ctrLedger⟩

/--
Witness for shared_ptr_refcount_invariant at concrete runs: after a single
construction the fresh counter cell holds exactly the reference count, and
after create, copy, destroy, destroy the object allocation is on the freed
ledger exactly because no live box references it.
-/
theorem shared_ptr_refcount_invariant_witness :
    (spRun [SPOp.create 0]).ctrVal 1 = refCtr (spRun [SPOp.create 0]) 1 ∧
    (0 ∈ (spRun [SPOp.create 0, SPOp.copyCtor 1 0, SPOp.destroy 0,
        SPOp.destroy 1]).freedObj ↔
      refObj (spRun [SPOp.create 0, SPOp.copyCtor 1 0, SPOp.destroy 0,
        SPOp.destroy 1]) 0 = 0) := by
  refine ⟨(shared_ptr_refcount_invariant [SPOp.create 0]).2.1 1 (by decide), ?_⟩
  exact (shared_ptr_refcount_invariant [SPOp.create 0, SPOp.copyCtor 1 0,
    SPOp.destroy 0, SPOp.destroy 1]).2.2.2.2.1 0 (by decide)

end Cppsalt
